import Mathlib

/-!
Verification of the dependency-graph extraction pipeline of the
stacks-project scripts (`scripts/dependency_graph.py`,
`scripts/interleaved_dep_graph.py`, `scripts/compute_stats.py`).

The Python source is shallowly embedded: every function below mirrors one
Python function or a small, named part of one.  Files are modelled as lists
of lines (the Python code reads files line by line, either via iteration or
via `splitlines()`); a file system is an association list from file name to
its list of lines, looked up positionally like `os.path.exists` + `open`.
Python dictionaries are modelled as association lists with first-match
lookup, where plain assignment replaces an existing binding in place (or
appends a fresh one) and `setdefault` keeps an existing binding.
Recursive scanners are written with an explicit fuel argument that strictly
exceeds the number of characters (or lines) still to be consumed, so every
definition is structurally recursive and kernel-reducible.
-/

namespace StacksDep

/-- Model of Python `c in s` for a character and a string. -/
def pyContains (s : String) (c : Char) : Bool :=
  s.data.contains c

/-- Prefix test on strings, at the character-list level so that concrete
instances reduce in the kernel (models Python `s.startswith(pre)`). -/
def pyStartsWith (s pre : String) : Bool :=
  pre.data.isPrefixOf s.data

/-- Suffix test on strings (models Python `s.endswith(suf)`). -/
def pyEndsWith (s suf : String) : Bool :=
  suf.data.reverse.isPrefixOf s.data.reverse

/-- Model of Python `s.strip()`. -/
def pyStrip (s : String) : String :=
  (((s.data.dropWhile Char.isWhitespace).reverse.dropWhile
    Char.isWhitespace).reverse).asString

/-- Model of Python `s.rstrip()`. -/
def pyRstrip (s : String) : String :=
  ((s.data.reverse.dropWhile Char.isWhitespace).reverse).asString

/-- Model of Python `s.lstrip()`. -/
def pyLstrip (s : String) : String :=
  (s.data.dropWhile Char.isWhitespace).asString

/-- Model of Python `s.upper()` (ASCII, as the tags are alphanumeric). -/
def pyToUpper (s : String) : String :=
  (s.data.map Char.toUpper).asString

/-- Model of Python `s.replace(pat, rep)`: non-overlapping, left to right,
fuel-indexed by the string length. -/
def pyReplaceAux (pat rep : List Char) : Nat → List Char → List Char
  | 0, l => l
  | _ + 1, [] => []
  | fuel + 1, c :: cs =>
    if pat.isPrefixOf (c :: cs) then
      rep ++ pyReplaceAux pat rep fuel ((c :: cs).drop pat.length)
    else c :: pyReplaceAux pat rep fuel cs

/-- Replace every occurrence of `pat` in `s` by `rep`. -/
def pyReplace (s pat rep : String) : String :=
  (pyReplaceAux pat.data rep.data (s.data.length + 1) s.data).asString

/-- Model of Python `sep.join(parts)`. -/
def pyJoin (sep : String) : List String → String
  | [] => ""
  | [a] => a
  | a :: b :: rest => a ++ sep ++ pyJoin sep (b :: rest)

/-- Whitespace tokenizer (model of Python `s.split()`): the maximal
non-whitespace runs, in order. -/
def wsTokens : List Char → List Char → List String
  | [], acc => if acc = [] then [] else [acc.reverse.asString]
  | c :: cs, acc =>
    if c.isWhitespace then
      if acc = [] then wsTokens cs []
      else acc.reverse.asString :: wsTokens cs []
    else wsTokens cs (c :: acc)

/-- Model of Python `s.split()`: split on whitespace runs, dropping empties. -/
def pySplitWs (s : String) : List String :=
  wsTokens s.data []

/-- Model of Python `s.rstrip('\\')`: drop every trailing backslash. -/
def pyRstripBackslash (s : String) : String :=
  ((s.data.reverse.dropWhile (fun c => c = '\\')).reverse).asString

/-- Lookup in a Python-dict model: value of the first binding of `k`. -/
def pyDictGet? {α : Type} (m : List (String × α)) (k : String) : Option α :=
  (m.find? (fun p => p.1 == k)).map (fun p => p.2)

/-- Membership in a Python-dict model. -/
def pyDictMem {α : Type} (m : List (String × α)) (k : String) : Bool :=
  (m.find? (fun p => p.1 == k)).isSome

/-- Model of Python `m[k] = v`: replace the binding in place, else append. -/
def pyDictSet {α : Type} (m : List (String × α)) (k : String) (v : α) :
    List (String × α) :=
  if pyDictMem m k then m.map (fun p => if p.1 == k then (k, v) else p)
  else m ++ [(k, v)]

/-- Model of Python `m.setdefault(k, v)`: keep an existing binding. -/
def pySetdefault {α : Type} (m : List (String × α)) (k : String) (v : α) :
    List (String × α) :=
  if pyDictMem m k then m else m ++ [(k, v)]

/-- A file system: file name to content, content being the list of lines. -/
def FS : Type := List (String × List String)

/-- Lookup of a file's lines, modelling `os.path.exists` plus `open`. -/
def fsFind (fs : FS) (name : String) : Option (List String) :=
  pyDictGet? fs name

/-- Model of `target.split('-', 1)[1]`: everything after the first dash. -/
def afterFirstDash (t : String) : String :=
  (((t.data.dropWhile (fun c => c ≠ '-')).drop 1)).asString

/-!  ## dependency_graph.py : constants and regex models -/

/-- The `ENVIRONMENTS` list of `dependency_graph.py`. -/
def ENVIRONMENTS : List String :=
  ["definition", "lemma", "proposition", "theorem",
   "remark", "remarks", "example", "exercise",
   "situation", "equation"]

/-- The `PREFIXES` tuple: each environment followed by a dash. -/
def PREFIXES : List String := ENVIRONMENTS.map (fun e => e ++ "-")

/-- Model of `re.match(r'\begin{(E1|...|En)}', line)`: the environment whose
full `\begin{...}` marker is a prefix of the line (the alternatives exclude
each other once the closing brace is required). -/
def matchBegin (line : String) : Option String :=
  ENVIRONMENTS.find? (fun e => pyStartsWith line ("\\begin\x7b" ++ e ++ "\x7d"))

/-- Model of `re.match(r'\label{([^}]+)}', line)`: a `\label{` prefix with a
non-empty brace-free capture closed by a brace. -/
def matchLabel (line : String) : Option String :=
  if pyStartsWith line "\\label\x7b" then
    let rest := (line.data.drop 7)
    let cap := rest.takeWhile (fun c => c ≠ '}')
    if 0 < cap.length ∧ cap.length < rest.length then some cap.asString
    else none
  else none

/-- Model of `re.findall(r'\ref{([^}]+)}', line)`, fuel-indexed: scan for
each `\ref{` occurrence, capture the non-empty brace-free argument, and
resume after the closing brace (non-overlapping matches, left to right). -/
def findRefsAux : Nat → List Char → List String
  | 0, _ => []
  | _ + 1, [] => []
  | fuel + 1, c :: cs =>
    if ("\\ref\x7b".data).isPrefixOf (c :: cs) then
      let rest := cs.drop 4
      let cap := rest.takeWhile (fun ch => ch ≠ '}')
      if cap.length < rest.length ∧ cap ≠ [] then
        cap.asString :: findRefsAux fuel (rest.drop (cap.length + 1))
      else findRefsAux fuel cs
    else findRefsAux fuel cs

/-- All `\ref{...}` captures of a line. -/
def findRefs (line : String) : List String :=
  findRefsAux line.data.length line.data

/-!  ## dependency_graph.py : parse_file -/

/-- The record stored in `results[full_label]` by `parse_file`. -/
structure BlockInfo where
  type : String
  file : String
  label : String
deriving DecidableEq, Repr

/-- The loop state of `parse_file`: the two state variables plus the two
accumulators threaded through the scan. -/
structure PFState where
  envType : Option String
  fullLabel : Option String
  results : List (String × BlockInfo)
  edges : List (String × String)
deriving DecidableEq, Repr

/-- The part of `target` checked against `PREFIXES` by `parse_file`. -/
def refCheck (target : String) : String :=
  if pyContains target '-' then afterFirstDash target else target

/-- Processing of one `\ref{...}` capture inside an open, labelled block:
qualify the token, test its kind-prefix, and record an edge. -/
def refFold (pre : String) (s : PFState) (ref : String) : PFState :=
  let target := if pyContains ref '-' then ref else pre ++ ref
  match s.fullLabel with
  | some fl =>
    if PREFIXES.any (fun p => pyStartsWith (refCheck target) p) then
      { s with edges := s.edges ++ [(fl, target)] }
    else s
  | none => s

/-- One iteration of the `parse_file` line loop. -/
def parseLine (name : String) (st : PFState) (rawline : String) : PFState :=
  let line := pyStrip rawline
  let pre := name ++ "-"
  match st.envType with
  | none =>
    match matchBegin line with
    | some e => { st with envType := some e, fullLabel := none }
    | none => st
  | some env =>
    match (if st.fullLabel.isNone then matchLabel line else none) with
    | some raw =>
      let full := if pyStartsWith raw pre then raw else pre ++ raw
      { st with fullLabel := some full,
                results := pyDictSet st.results full ⟨env, name, raw⟩ }
    | none =>
      let st1 := (findRefs line).foldl (refFold pre) st
      if pyStartsWith line ("\\end\x7b" ++ env ++ "\x7d") then
        { st1 with envType := none, fullLabel := none }
      else st1

/-- Model of `parse_file(path, name, results, edges)`: a missing document is
silently skipped; otherwise the line loop runs with fresh state variables. -/
def parseFile (fs : FS) (name : String)
    (results : List (String × BlockInfo)) (edges : List (String × String)) :
    List (String × BlockInfo) × List (String × String) :=
  match fsFind fs (name ++ ".tex") with
  | none => (results, edges)
  | some lines =>
    let st := lines.foldl (parseLine name) ⟨none, none, results, edges⟩
    (st.results, st.edges)

/-!  ## dependency_graph.py : list_text_files and build_graph -/

/-- The continuation-line loop of `list_text_files`, fuel-indexed.  At end of
file Python's `readline` yields the empty string, which ends the loop. -/
def collectItemsAux : Nat → String → String → List String → String
  | 0, items, line, _ => items ++ " " ++ line
  | fuel + 1, items, line, remaining =>
    if pyEndsWith (pyRstrip line) "\\" then
      let items1 := items ++ " " ++ pyRstripBackslash (pyRstrip line)
      match remaining with
      | [] => collectItemsAux fuel items1 "" []
      | l :: ls => collectItemsAux fuel items1 l ls
    else items ++ " " ++ line

/-- Model of `list_text_files(path)`: a missing `Makefile` raises (Python
`open` fails), as does an empty one (the loop variable is never bound);
otherwise the `LIJST = ` variable is extracted with its continuations.  If
no `LIJST = ` line exists, Python is left with the file's last line. -/
def listTextFiles (fs : FS) : Except Unit (List String) :=
  match fsFind fs "Makefile" with
  | none => .error ()
  | some lines =>
    match lines with
    | [] => .error ()
    | l0 :: ls0 =>
      let rest := (l0 :: ls0).dropWhile (fun l => ¬ pyStartsWith l "LIJST = ")
      let start := match rest with
        | [] => ((l0 :: ls0).getLastD "", ([] : List String))
        | l :: ls => (l, ls)
      let items := collectItemsAux (start.2.length + 1) "" start.1 start.2
      .ok (pySplitWs (pyReplace items "LIJST = " ""))

/-- Model of `build_graph(path)`: fold `parse_file` over the manifest. -/
def buildGraph (fs : FS) :
    Except Unit (List (String × BlockInfo) × List (String × String)) :=
  match listTextFiles fs with
  | .error e => .error e
  | .ok names =>
    .ok (names.foldl (fun acc n => parseFile fs n acc.1 acc.2) ([], []))

/-!  ## dependency_graph.py : exporters -/

/-- Node labels emitted by `write_dot` (one node statement per result). -/
def writeDotNodes (results : List (String × BlockInfo)) : List String :=
  results.map (fun p => p.1)

/-- Edge statements emitted by `write_dot`: an edge is written only when its
target is a key of `results`. -/
def writeDotEdges (results : List (String × BlockInfo))
    (edges : List (String × String)) : List (String × String) :=
  edges.filter (fun e => pyDictMem results e.2)

/-- Model of the `--json` export in `main`: `{'nodes': results, 'edges':
edges}` is dumped with no filtering at all. -/
def writeJson (results : List (String × BlockInfo))
    (edges : List (String × String)) :
    List (String × BlockInfo) × List (String × String) :=
  (results, edges)

/-!  ## dependency_graph.py : scan_mathlib -/

/-- Generic model of `re.search`: try to recognise the pattern at every
start position, from left to right, fuel-indexed by the string length. -/
def searchAux (p : List Char → Option String) : Nat → List Char → Option String
  | 0, _ => none
  | _ + 1, [] => none
  | fuel + 1, c :: cs =>
    match p (c :: cs) with
    | some t => some t
    | none => searchAux p fuel cs

/-- Run a positional recogniser as a whole-line search. -/
def pySearch (p : List Char → Option String) (line : String) : Option String :=
  searchAux p (line.data.length + 1) line.data

/-- Recogniser, at one position, of
`https://stacks\.math\.columbia\.edu/tag/([0-9A-Za-z]+)`: the literal URL
followed by a maximal non-empty alphanumeric run. -/
def tagUrlAt (l : List Char) : Option String :=
  let lit := "https://stacks.math.columbia.edu/tag/".data
  if lit.isPrefixOf l then
    let cap := (l.drop lit.length).takeWhile Char.isAlphanum
    if cap ≠ [] then some cap.asString else none
  else none

/-- Recogniser, at one position, of `@\[\s*stacks\s+([0-9A-Za-z]{4})\s*\]`. -/
def attrTagAt (l : List Char) : Option String :=
  match l with
  | '@' :: '[' :: rest =>
    let r1 := rest.dropWhile Char.isWhitespace
    if ("stacks".data).isPrefixOf r1 then
      let r2 := r1.drop 6
      let ws := r2.takeWhile Char.isWhitespace
      if ws ≠ [] then
        match r2.drop ws.length with
        | a :: b :: c :: d :: r3 =>
          if a.isAlphanum ∧ b.isAlphanum ∧ c.isAlphanum ∧ d.isAlphanum then
            match r3.dropWhile Char.isWhitespace with
            | ']' :: _ => some ([a, b, c, d]).asString
            | _ => none
          else none
        | _ => none
      else none
    else none
  | _ => none

/-- Recogniser, at one position, of `Stacks\s+Tag\s+([0-9A-Za-z]{4})`,
case-insensitively on the two keywords. -/
def docTagAt (l : List Char) : Option String :=
  if (l.take 6).map Char.toLower = "stacks".data then
    let r1 := (l.drop 6)
    let ws1 := r1.takeWhile Char.isWhitespace
    if ws1 ≠ [] then
      let r2 := r1.drop ws1.length
      if (r2.take 3).map Char.toLower = "tag".data then
        let r3 := r2.drop 3
        let ws2 := r3.takeWhile Char.isWhitespace
        if ws2 ≠ [] then
          match r3.drop ws2.length with
          | a :: b :: c :: d :: _ =>
            if a.isAlphanum ∧ b.isAlphanum ∧ c.isAlphanum ∧ d.isAlphanum then
              some ([a, b, c, d]).asString
            else none
          | _ => none
        else none
      else none
    else none
  else none

/-- The three tag recognisers of `scan_mathlib`, combined with Python `or`:
the first matching search wins for the line. -/
def scanLineMatch (line : String) : Option String :=
  match pySearch tagUrlAt line with
  | some t => some t
  | none =>
    match pySearch attrTagAt line with
    | some t => some t
    | none => pySearch docTagAt line

/-- The declaration keywords of `env_re` (also `LEAN_HEADER_RE`). -/
def LEAN_KEYWORDS : List String :=
  ["lemma", "theorem", "def", "definition", "structure", "class", "instance"]

/-- Model of `env_re.search(line)` with its `^` anchor: the line starts with
a declaration keyword, then at least one whitespace character, then at least
one word character or dot. -/
def envTest (line : String) : Bool :=
  LEAN_KEYWORDS.any (fun kw =>
    pyStartsWith line kw &&
      (let rest := line.data.drop kw.data.length
       let ws := rest.takeWhile Char.isWhitespace
       (!ws.isEmpty) &&
         match rest.drop ws.length with
         | c :: _ => c.isAlphanum || c == '_' || c == '.'
         | [] => false))

/-- Backward header search of `scan_mathlib`: the largest `j ≤ i` whose line
passes `env_re`. -/
def backSearch (lines : List String) (i : Nat) : Option Nat :=
  ((List.range (i + 1)).reverse).find? (fun j => envTest (lines.getD j ""))

/-- Forward fallback header search: the smallest `j ≥ i` whose line passes
`env_re`; `none` models falling off the end of the file. -/
def fwdSearch (lines : List String) (i : Nat) : Option Nat :=
  (List.range' i (lines.length - i)).find? (fun j => envTest (lines.getD j ""))

/-- The slice `lines[start : min(len(lines), i + 3)]`. -/
def snippetWindow (lines : List String) (start i : Nat) : List String :=
  (lines.drop start).take (min lines.length (i + 3) - start)

/-- Snippet registration of `scan_mathlib`: join the window, append a final
newline, and keep only the first snippet per label (`setdefault`). -/
def addSnippet (res : List (String × String)) (label : String)
    (lines : List String) (start i : Nat) : List (String × String) :=
  pySetdefault res label (pyJoin "\n" (snippetWindow lines start i) ++ "\n")

/-- Processing of line `i` of one secondary-corpus file in `scan_mathlib`:
match a tag, resolve it, search for the header, and register the snippet.
The resolution guard is Python's `if not label: continue`: it skips both an
unresolved tag and a tag the registry maps to the empty string (a registry
line `CODE,` stores an empty label, which is falsy). -/
def processScanLine (tagMap : List (String × String)) (lines : List String)
    (res : List (String × String)) (i : Nat) : List (String × String) :=
  match scanLineMatch (lines.getD i "") with
  | none => res
  | some tagRaw =>
    match pyDictGet? tagMap (pyToUpper tagRaw) with
    | none => res
    | some label =>
      if label = "" then res
      else
        match backSearch lines i with
        | some j => addSnippet res label lines j i
        | none =>
          match fwdSearch lines i with
          | some j => addSnippet res label lines j i
          | none => res

/-- Processing of one file of the secondary corpus in `scan_mathlib`: only
`.lean` files are scanned, line by line. -/
def scanFileStep (tagMap : List (String × String))
    (res : List (String × String)) (f : String × List String) :
    List (String × String) :=
  if pyEndsWith f.1 ".lean" then
    (List.range f.2.length).foldl (processScanLine tagMap f.2) res
  else res

/-- Model of `scan_mathlib(path, tag_map)`: fold the per-line processing
over every `.lean` file in enumeration order. -/
def scanMathlib (files : FS) (tagMap : List (String × String)) :
    List (String × String) :=
  files.foldl (scanFileStep tagMap) []

/-!  ## dependency_graph.py : _extract_environment -/

/-- Substring containment, fuel-indexed: models `re.search` on an escaped
literal pattern. -/
def containsSubAux (pat : List Char) : Nat → List Char → Bool
  | 0, _ => false
  | _ + 1, [] => pat.isEmpty
  | fuel + 1, c :: cs => pat.isPrefixOf (c :: cs) || containsSubAux pat fuel cs

/-- Does `s` contain `pat` as a substring? -/
def strContainsSub (s pat : String) : Bool :=
  containsSubAux pat.data (s.data.length + 1) s.data

/-- The loop state of `_extract_environment`: the `collecting` flag, the
open environment, the accumulated lines, the `break` flag, and an error
flag for the one path where the Python code would raise (the label and the
closing marker on the same line leave `collecting` set with `env_type`
cleared, and the next iteration builds a regex from `None`). -/
structure ExtractState where
  collecting : Bool
  envType : Option String
  acc : List String
  done : Bool
  err : Bool
deriving DecidableEq, Repr

/-- One iteration of the `_extract_environment` line loop (the raw line is
used: this loop does not strip). -/
def extractStep (target : String) (st : ExtractState) (line : String) :
    ExtractState :=
  if st.done || st.err then st
  else if !st.collecting then
    match st.envType with
    | none =>
      match matchBegin line with
      | some e => { st with envType := some e, acc := [line] }
      | none => st
    | some env =>
      let st1 := { st with acc := st.acc ++ [line] }
      let st2 :=
        if strContainsSub line ("\\label\x7b" ++ target ++ "\x7d") then
          { st1 with collecting := true }
        else st1
      if pyStartsWith line ("\\end\x7b" ++ env ++ "\x7d") then
        { st2 with envType := none, acc := [] }
      else st2
  else
    let st1 := { st with acc := st.acc ++ [line] }
    match st.envType with
    | some env =>
      if pyStartsWith line ("\\end\x7b" ++ env ++ "\x7d") then
        { st1 with done := true }
      else st1
    | none => { st1 with err := true }

/-- The `_extract_environment` line loop over a file's lines. -/
def extractCore (lines : List String) (target : String) :
    Except Unit (List String) :=
  let st := lines.foldl (extractStep target) ⟨false, none, [], false, false⟩
  if st.err then .error () else .ok st.acc

/-- Model of `_extract_environment(path, label, results)`: an unknown label
yields no lines; the block's source document is then re-read and scanned
for the environment containing the raw label. -/
def extractEnvironment (fs : FS) (label : String)
    (results : List (String × BlockInfo)) : Except Unit (List String) :=
  match pyDictGet? results label with
  | none => .ok []
  | some info =>
    match fsFind fs (info.file ++ ".tex") with
    | none => .error ()
    | some lines => extractCore lines info.label

/-!  ## dependency_graph.py : generate_dependency_tex -/

/-- The adjacency lists built by `generate_dependency_tex` from the edge
list (`adj.setdefault(src, []).append(dst)` groups targets by source,
preserving edge order). -/
def adjGet (edges : List (String × String)) (node : String) : List String :=
  (edges.filter (fun e => e.1 == node)).map (fun e => e.2)

/-- The recursive `visit` of `generate_dependency_tex`, fuel-indexed.  The
state is the pair (visited, order); a node already visited, or absent from
`results`, is never re-descended into.  The fuel only bounds the recursion
depth; `visitF_stable` below shows any fuel above the number of result
keys gives the behaviour of the unbounded Python recursion. -/
def visitF (edges : List (String × String))
    (results : List (String × BlockInfo)) :
    Nat → String → List String × List String → List String × List String
  | 0, _, st => st
  | fuel + 1, node, st =>
    if st.1.contains node || !(pyDictMem results node) then st
    else
      let st1 := (st.1 ++ [node], st.2)
      let st2 := (adjGet edges node).foldl
        (fun s dep => visitF edges results fuel dep s) st1
      (st2.1, st2.2 ++ [node])

/-- The `\begin{verbatim}` block written for one label's Lean snippet; an
absent or empty snippet (both falsy in Python) writes nothing. -/
def verbatimBlock (snips : List (String × String)) (lbl : String) : String :=
  match pyDictGet? snips lbl with
  | some s =>
    if s ≠ "" then
      "\\begin\x7bverbatim\x7d\n" ++ s ++
        (if pyEndsWith s "\n" then "" else "\n") ++ "\\end\x7bverbatim\x7d\n"
    else ""
  | none => ""

/-- The per-label body written by `generate_dependency_tex`: the extracted
environment lines verbatim (each line carrying its newline), then the
optional verbatim snippet. -/
def emitBlocks (fs : FS) (results : List (String × BlockInfo))
    (snips : List (String × String)) : List String → Except Unit String
  | [] => .ok ""
  | lbl :: rest => do
    let ls ← extractEnvironment fs lbl results
    let tail ← emitBlocks fs results snips rest
    .ok (String.join (ls.map (fun l => l ++ "\n")) ++ verbatimBlock snips lbl
          ++ tail)

/-- Model of `generate_dependency_tex(label, results, edges, path, outfile,
lean_snippets)`: run the traversal, then emit the document, iterating over
the reversed post-order. -/
def generateDependencyTex (fs : FS) (label : String)
    (results : List (String × BlockInfo)) (edges : List (String × String))
    (snips : List (String × String)) : Except Unit String := do
  let st := visitF edges results (results.length + 1) label ([], [])
  let body ← emitBlocks fs results snips st.2.reverse
  .ok ("\\documentclass\x7barticle\x7d\n\\begin\x7bdocument\x7d\n" ++ body
        ++ "\\end\x7bdocument\x7d\n")

/-!  ## interleaved_dep_graph.py -/

/-- The `StacksEnv` dataclass.  `refs` is a Python set; it is modelled as
the list of distinct references in iteration order, which the claims below
quantify over. -/
structure StacksEnv where
  envType : String
  label : String
  file : String
  body : List String
  refs : List String
deriving DecidableEq, Repr

/-- The synthesised header of `StacksEnv.tex_block`. -/
def texHeader (e : StacksEnv) : String :=
  "\\begin\x7b" ++ e.envType ++ "\x7d\\label\x7b" ++ e.label ++ "\x7d"

/-- The synthesised footer of `StacksEnv.tex_block`. -/
def texFooter (e : StacksEnv) : String :=
  "\\end\x7b" ++ e.envType ++ "\x7d"

/-- Model of `StacksEnv.tex_block`: `"\n".join([header, *body, footer])`. -/
def texBlock (e : StacksEnv) : String :=
  pyJoin "\n" ([texHeader e] ++ e.body ++ [texFooter e])

/-- The `LeanSnippet` dataclass (the `start_line` field is 1-based). -/
structure LeanSnippet where
  tag : String
  file : String
  startLine : Nat
  lines : List String
deriving DecidableEq, Repr

/-- Recogniser, at one position, of `LEAN_ATTR_RE`, which unlike the
`scan_mathlib` attribute pattern has no closing bracket. -/
def leanAttrAt (l : List Char) : Option String :=
  match l with
  | '@' :: '[' :: rest =>
    let r1 := rest.dropWhile Char.isWhitespace
    if ("stacks".data).isPrefixOf r1 then
      let r2 := r1.drop 6
      let ws := r2.takeWhile Char.isWhitespace
      if ws ≠ [] then
        match r2.drop ws.length with
        | a :: b :: c :: d :: _ =>
          if a.isAlphanum ∧ b.isAlphanum ∧ c.isAlphanum ∧ d.isAlphanum then
            some ([a, b, c, d]).asString
          else none
        | _ => none
      else none
    else none
  | _ => none

/-- The `LeanParser._parse_lean_file` while loop, fuel-indexed.  Every
iteration advances `i` by at least one, so fuel one above the number of
lines reproduces the Python loop. -/
def leanParseAux (fname : String) (lines : List String) :
    Nat → Nat → List String → List (String × LeanSnippet) →
    List (String × LeanSnippet)
  | 0, _, _, snippets => snippets
  | fuel + 1, i, pending, snippets =>
    if i < lines.length then
      let line := lines.getD i ""
      match pySearch leanAttrAt line with
      | some tag =>
        leanParseAux fname lines fuel (i + 1) (pending ++ [pyToUpper tag])
          snippets
      | none =>
        let docHit :=
          match pySearch docTagAt line with
          | some tag =>
            if pyStartsWith (pyLstrip (lines.getD (i - 1) "")) "/--" then
              some tag
            else none
          | none => none
        match docHit with
        | some tag =>
          leanParseAux fname lines fuel (i + 1) (pending ++ [pyToUpper tag])
            snippets
        | none =>
          if envTest (pyStrip line) && !pending.isEmpty then
            let body := (lines.drop (i + 1)).takeWhile (fun l => pyStrip l ≠ "")
            let snippetLines := line :: body
            let snippets1 := pending.foldl
              (fun sn tag => pyDictSet sn tag ⟨tag, fname, i + 1, snippetLines⟩)
              snippets
            leanParseAux fname lines fuel (i + 1 + body.length) [] snippets1
          else
            leanParseAux fname lines fuel (i + 1) pending snippets
    else snippets

/-- Model of `LeanParser._parse_lean_file(path)` folded into a snippet
dictionary keyed by tag. -/
def leanParseFile (fname : String) (lines : List String)
    (snippets : List (String × LeanSnippet)) : List (String × LeanSnippet) :=
  leanParseAux fname lines (lines.length + 1) 0 [] snippets

/-!  ## interleaved_dep_graph.py : DependencyGraphBuilder -/

/-- The node/edge state of the `networkx.DiGraph` being populated, plus the
traversal's visited set. -/
structure BuildState where
  visited : List String
  nodes : List String
  edges : List (String × String)
deriving DecidableEq, Repr

/-- `networkx` node insertion: adding an existing node only refreshes its
attributes. -/
def ensureNode (ns : List String) (x : String) : List String :=
  if ns.contains x then ns else ns ++ [x]

/-- `_add_node`: insert the node (attributes are not tracked here). -/
def addNodeB (st : BuildState) (x : String) : BuildState :=
  { st with nodes := ensureNode st.nodes x }

/-- `_add_edge`: `networkx` inserts both endpoints into the node set and
never duplicates a directed edge. -/
def addEdgeB (st : BuildState) (u v : String) : BuildState :=
  { st with
    nodes := ensureNode (ensureNode st.nodes u) v,
    edges := if st.edges.contains (u, v) then st.edges
             else st.edges ++ [(u, v)] }

/-- The kind test of `_should_stop`: stop on kind `definition` unless the
kind-stop was disabled.  Its call sites only pass keys of `envs`. -/
def stopKind (envs : List (String × StacksEnv)) (includeDefs : Bool)
    (label : String) : Bool :=
  if !includeDefs then false
  else
    match pyDictGet? envs label with
    | some e => e.envType == "definition"
    | none => false

/-- Model of `_should_stop(label, d)`. -/
def shouldStop (envs : List (String × StacksEnv)) (includeDefs : Bool)
    (depth : Option Nat) (label : String) (d : Nat) : Bool :=
  match depth with
  | some dep => if dep ≤ d then true else stopKind envs includeDefs label
  | none => stopKind envs includeDefs label

/-- The recursive `dfs` of `DependencyGraphBuilder.build`, fuel-indexed:
the node is added first, then the stop check runs, and only then are the
children expanded (dangling references are skipped silently). -/
def dfsB (envs : List (String × StacksEnv)) (includeDefs : Bool)
    (depth : Option Nat) :
    Nat → String → Nat → BuildState → BuildState
  | 0, _, _, st => st
  | fuel + 1, label, d, st =>
    if st.visited.contains label then st
    else
      let st1 := addNodeB { st with visited := st.visited ++ [label] } label
      if shouldStop envs includeDefs depth label d then st1
      else
        match pyDictGet? envs label with
        | none => st1
        | some env =>
          env.refs.foldl (fun s dep =>
            if !(pyDictMem envs dep) then s
            else dfsB envs includeDefs depth fuel dep (d + 1)
              (addEdgeB s label dep)) st1

/-- Model of `DependencyGraphBuilder.build(root_label, depth)`: an unknown
root raises `KeyError`; otherwise the depth-first traversal runs from the
root at depth `0` on an empty graph. -/
def buildB (envs : List (String × StacksEnv)) (includeDefs : Bool)
    (depth : Option Nat) (root : String) : Except String BuildState :=
  if !(pyDictMem envs root) then
    .error ("Unknown label " ++ root ++ " in Stacks data")
  else
    .ok (dfsB envs includeDefs depth (envs.length + 1) root 0 ⟨[], [], []⟩)

/-!  ## Generic lemmas about the model primitives -/

/-- A property preserved by each step is preserved by a whole fold. -/
lemma foldl_inv {σ β : Type _} {P : σ → Prop} (step : σ → β → σ)
    (h : ∀ s b, P s → P (step s b)) :
    ∀ (l : List β) (s : σ), P s → P (l.foldl step s)
  | [], _, hs => hs
  | b :: l, s, hs => foldl_inv step h l (step s b) (h s b hs)

/-- Membership in a dict model, as an existential over its entries. -/
lemma pyDictMem_iff {α : Type} (m : List (String × α)) (k : String) :
    pyDictMem m k = true ↔ ∃ p ∈ m, p.1 = k := by
  simp [pyDictMem, List.find?_isSome]

/-- Assignment makes the key a member. -/
lemma pyDictMem_pyDictSet_self {α : Type} (m : List (String × α))
    (k : String) (v : α) : pyDictMem (pyDictSet m k v) k = true := by
  unfold pyDictSet
  by_cases h : pyDictMem m k = true
  · rcases (pyDictMem_iff m k).1 h with ⟨p, hp, hk⟩
    simp only [h, if_true]
    rw [pyDictMem_iff]
    refine ⟨if p.1 == k then (k, v) else p, List.mem_map_of_mem _ hp, ?_⟩
    simp [hk]
  · simp only [h, if_false]
    rw [pyDictMem_iff]
    exact ⟨(k, v), by simp⟩

/-- Assignment preserves membership of every key. -/
lemma pyDictMem_pyDictSet_mono {α : Type} {m : List (String × α)} {x : String}
    (k : String) (v : α) (h : pyDictMem m x = true) :
    pyDictMem (pyDictSet m k v) x = true := by
  rcases (pyDictMem_iff m x).1 h with ⟨p, hp, hk⟩
  unfold pyDictSet
  by_cases hm : pyDictMem m k = true
  · simp only [hm, if_true]
    rw [pyDictMem_iff]
    refine ⟨if p.1 == k then (k, v) else p, List.mem_map_of_mem _ hp, ?_⟩
    by_cases hb : p.1 == k
    · simp only [hb, if_true]
      have : p.1 = k := by simpa using hb
      rw [← hk, this]
    · simp only [hb, if_false]
      exact hk
  · simp only [hm, if_false]
    rw [pyDictMem_iff]
    exact ⟨p, List.mem_append_left _ hp, hk⟩

/-- Every entry after an assignment is an old entry or the new binding. -/
lemma mem_pyDictSet {α : Type} {m : List (String × α)} {k : String} {v : α}
    {q : String × α} (hq : q ∈ pyDictSet m k v) : q ∈ m ∨ q = (k, v) := by
  unfold pyDictSet at hq
  by_cases h : pyDictMem m k = true
  · simp only [h, if_true] at hq
    rcases List.mem_map.1 hq with ⟨p, hp, hpq⟩
    by_cases hb : p.1 == k
    · simp only [hb, if_true] at hpq
      exact Or.inr hpq.symm
    · simp only [hb, if_false] at hpq
      exact Or.inl (hpq ▸ hp)
  · simp only [h, if_false] at hq
    rcases List.mem_append.1 hq with hq | hq
    · exact Or.inl hq
    · exact Or.inr (by simpa using hq)

/-- A successful search in the left part wins over any right part. -/
lemma find?_append_of_some {α : Type} {l₁ : List α} {p : α → Bool} {x : α}
    (l₂ : List α) (h : l₁.find? p = some x) :
    (l₁ ++ l₂).find? p = some x := by
  induction l₁ with
  | nil => simp [List.find?] at h
  | cons a l ih =>
    by_cases ha : p a = true
    · simp only [List.find?_cons_of_pos _ ha] at h
      simpa only [List.cons_append, List.find?_cons_of_pos _ ha]
    · simp only [List.find?_cons_of_neg _ ha] at h
      simpa only [List.cons_append, List.find?_cons_of_neg _ ha] using ih h

/-- A `setdefault` never changes the value of an already-bound key. -/
lemma pyDictGet?_pySetdefault_preserve {α : Type} {m : List (String × α)}
    {k : String} {s : α} (k' : String) (v : α)
    (h : pyDictGet? m k = some s) :
    pyDictGet? (pySetdefault m k' v) k = some s := by
  unfold pySetdefault
  by_cases hm : pyDictMem m k' = true
  · simpa only [hm, if_true]
  · have hm' : pyDictMem m k' = false := by simpa using hm
    simp only [hm', Bool.false_eq_true, if_false]
    unfold pyDictGet? at h ⊢
    cases hf : m.find? (fun p => p.1 == k) with
    | none => rw [hf] at h; simp at h
    | some q =>
      rw [hf] at h
      rw [find?_append_of_some _ hf]
      exact h

/-- Contiguous-slice relation: `s` occurs verbatim, as consecutive lines,
inside `l`. -/
def sliceOf {α : Type} (s l : List α) : Prop :=
  ∃ t u, t ++ s ++ u = l

/-- End-slice relation: `s` is the final run of `l`. -/
def endSliceOf {α : Type} (s l : List α) : Prop :=
  ∃ t, t ++ s = l

lemma endSliceOf_slice {α : Type} {s l : List α} (h : endSliceOf s l) :
    sliceOf s l := by
  rcases h with ⟨t, ht⟩
  exact ⟨t, [], by simp [ht]⟩

lemma sliceOf_nil {α : Type} (l : List α) : sliceOf [] l :=
  ⟨[], l, by simp⟩

lemma endSliceOf_nil {α : Type} (l : List α) : endSliceOf [] l :=
  ⟨l, by simp⟩

lemma sliceOf_append_right {α : Type} {s l : List α} (l' : List α)
    (h : sliceOf s l) : sliceOf s (l ++ l') := by
  rcases h with ⟨t, u, ht⟩
  exact ⟨t, u ++ l', by rw [← ht]; simp⟩

lemma endSliceOf_snoc {α : Type} {s l : List α} (x : α)
    (h : endSliceOf s l) : endSliceOf (s ++ [x]) (l ++ [x]) := by
  rcases h with ⟨t, ht⟩
  exact ⟨t, by rw [← ht]; simp⟩

lemma endSliceOf_single {α : Type} (l : List α) (x : α) :
    endSliceOf [x] (l ++ [x]) :=
  ⟨l, rfl⟩

/-- Unfolding of `pyJoin` on a list with at least two elements. -/
lemma pyJoin_cons {sep a : String} {l : List String} (h : l ≠ []) :
    pyJoin sep (a :: l) = a ++ sep ++ pyJoin sep l := by
  cases l with
  | nil => exact absurd rfl h
  | cons b t => rfl

/-- Joining after appending a final element. -/
lemma pyJoin_snoc {sep x : String} : ∀ {l : List String}, l ≠ [] →
    pyJoin sep (l ++ [x]) = pyJoin sep l ++ sep ++ x := by
  intro l
  induction l with
  | nil => intro h; exact absurd rfl h
  | cons a t ih =>
    intro _
    cases t with
    | nil => rfl
    | cons b u =>
      have hne : b :: u ≠ [] := by simp
      have hne2 : (b :: u) ++ [x] ≠ [] := by simp
      rw [List.cons_append, pyJoin_cons hne2, pyJoin_cons hne, ih hne]
      simp [String.append_assoc]

/-- Pointwise implication between filters bounds their lengths. -/
lemma length_filter_le_of_imp {α : Type} {p q : α → Bool}
    (h : ∀ a, p a = true → q a = true) :
    ∀ l : List α, (l.filter p).length ≤ (l.filter q).length := by
  intro l
  induction l with
  | nil => exact Nat.le_refl _
  | cons a t ih =>
    by_cases hp : p a = true
    · simp only [List.filter_cons, hp, h a hp, if_true, List.length_cons]
      exact Nat.succ_le_succ ih
    · have hp' : p a = false := by simpa using hp
      by_cases hq : q a = true
      · simp only [List.filter_cons, hp', hq, Bool.false_eq_true, if_false,
          if_true, List.length_cons]
        exact Nat.le_succ_of_le ih
      · have hq' : q a = false := by simpa using hq
        simpa only [List.filter_cons, hp', hq', Bool.false_eq_true, if_false]
          using ih

/-- A strict witness makes the filter-length bound strict. -/
lemma length_filter_lt_of_imp {α : Type} {p q : α → Bool}
    (h : ∀ a, p a = true → q a = true) {a₀ : α}
    (hq : q a₀ = true) (hp : p a₀ = false) :
    ∀ {l : List α}, a₀ ∈ l → (l.filter p).length < (l.filter q).length := by
  intro l
  induction l with
  | nil => intro hmem; simp at hmem
  | cons a t ih =>
    intro hmem
    rcases List.mem_cons.1 hmem with rfl | hmem'
    · simp only [List.filter_cons, hp, hq, Bool.false_eq_true, if_false,
        if_true, List.length_cons]
      exact Nat.lt_succ_of_le (length_filter_le_of_imp h t)
    · by_cases hpa : p a = true
      · simp only [List.filter_cons, hpa, h a hpa, if_true, List.length_cons]
        exact Nat.succ_lt_succ (ih hmem')
      · have hpa' : p a = false := by simpa using hpa
        by_cases hqa : q a = true
        · simp only [List.filter_cons, hpa', hqa, Bool.false_eq_true,
            if_false, if_true, List.length_cons]
          exact Nat.lt_succ_of_lt (ih hmem')
        · have hqa' : q a = false := by simpa using hqa
          simpa only [List.filter_cons, hpa', hqa', Bool.false_eq_true,
            if_false] using ih hmem'

/-!  ## Invariants of the parse_file line loop -/

/-- The registration invariant of the `parse_file` state: every recorded
edge's source is a registered label, and so is the currently open label. -/
def PFInv (st : PFState) : Prop :=
  (∀ e ∈ st.edges, pyDictMem st.results e.1 = true) ∧
  (∀ fl, st.fullLabel = some fl → pyDictMem st.results fl = true)

lemma refFold_pfInv {pre : String} {s : PFState} {ref : String}
    (h : PFInv s) : PFInv (refFold pre s ref) := by
  unfold refFold
  cases hfl : s.fullLabel with
  | none => simpa [hfl] using h
  | some fl =>
    simp only [hfl]
    by_cases hg : PREFIXES.any (fun p =>
        pyStartsWith (refCheck (if pyContains ref '-' then ref
          else pre ++ ref)) p) = true
    · rw [if_pos hg]
      refine ⟨?_, ?_⟩
      · intro e he
        rcases List.mem_append.1 he with he | he
        · exact h.1 e he
        · have : e = (fl, if pyContains ref '-' then ref else pre ++ ref) := by
            simpa using he
          rw [this]
          exact h.2 fl hfl
      · intro fl' hfl'
        have heq : fl = fl' := by simpa using hfl'
        rw [← heq]
        exact h.2 fl hfl
    · rw [if_neg hg]
      exact h

lemma parseLine_pfInv {name : String} {st : PFState} {line : String}
    (h : PFInv st) : PFInv (parseLine name st line) := by
  unfold parseLine
  cases he : st.envType with
  | none =>
    cases hb : matchBegin (pyStrip line) with
    | none => simpa [he, hb] using h
    | some e =>
      simp only [he, hb]
      exact ⟨h.1, by intro fl hfl; simp at hfl⟩
  | some env =>
    cases hl : (if st.fullLabel.isNone then matchLabel (pyStrip line)
        else none) with
    | some raw =>
      simp only [he, hl]
      refine ⟨?_, ?_⟩
      · intro e hme
        exact pyDictMem_pyDictSet_mono _ _ (h.1 e hme)
      · intro fl hfl
        simp only [Option.some.injEq] at hfl
        rw [← hfl]
        exact pyDictMem_pyDictSet_self _ _ _
    | none =>
      simp only [he, hl]
      have h1 : PFInv ((findRefs (pyStrip line)).foldl
          (refFold (name ++ "-")) st) :=
        foldl_inv _ (fun s b hs => refFold_pfInv hs) _ _ h
      by_cases hend : pyStartsWith (pyStrip line)
          ("\\end\x7b" ++ env ++ "\x7d") = true
      · rw [if_pos hend]
        exact ⟨h1.1, by intro fl hfl; simp at hfl⟩
      · rw [if_neg hend]
        exact h1

/-- Inside `parse_file`, an edge is only ever recorded after its source
label was registered: across the whole file, every edge source is a key of
the result mapping. -/
lemma parseFile_src_inv {fs : FS} {name : String}
    {results : List (String × BlockInfo)} {edges : List (String × String)}
    (h : ∀ e ∈ edges, pyDictMem results e.1 = true) :
    ∀ e ∈ (parseFile fs name results edges).2,
      pyDictMem (parseFile fs name results edges).1 e.1 = true := by
  unfold parseFile
  cases hf : fsFind fs (name ++ ".tex") with
  | none => simpa using h
  | some lines =>
    simp only
    have hinv : PFInv ⟨none, none, results, edges⟩ :=
      ⟨h, by intro fl hfl; simp at hfl⟩
    have := foldl_inv (parseLine name)
      (fun s b hs => parseLine_pfInv hs) lines _ hinv
    exact this.1

/-- Across `build_graph`'s fold over the manifest, every edge source is a
registered label. -/
lemma buildGraph_src_inv {fs : FS} {r : List (String × BlockInfo)}
    {e : List (String × String)} (h : buildGraph fs = .ok (r, e)) :
    ∀ p ∈ e, pyDictMem r p.1 = true := by
  unfold buildGraph at h
  cases hl : listTextFiles fs with
  | error err => rw [hl] at h; simp at h
  | ok names =>
    rw [hl] at h
    simp only [Except.ok.injEq] at h
    have key : ∀ p ∈ (names.foldl
        (fun acc n => parseFile fs n acc.1 acc.2) (([], []) :
          List (String × BlockInfo) × List (String × String))).2,
        pyDictMem (names.foldl
          (fun acc n => parseFile fs n acc.1 acc.2) ([], [])).1 p.1 = true := by
      have := @foldl_inv
        (List (String × BlockInfo) × List (String × String)) String
        (fun acc => ∀ p ∈ acc.2, pyDictMem acc.1 p.1 = true)
        (fun acc n => parseFile fs n acc.1 acc.2)
        (fun s b hs => parseFile_src_inv hs)
        names ([], []) (by intro p hp; simp at hp)
      exact this
    have hr : r = (names.foldl
        (fun acc n => parseFile fs n acc.1 acc.2) (([], []) :
          List (String × BlockInfo) × List (String × String))).1 := by
      rw [h]
    have he2 : e = (names.foldl
        (fun acc n => parseFile fs n acc.1 acc.2) (([], []) :
          List (String × BlockInfo) × List (String × String))).2 := by
      rw [h]
    rw [hr, he2]
    exact key

/-- The label-qualification invariant of the registered blocks: a key is
its raw label verbatim exactly when the raw label already starts with the
source document's stem followed by a dash, and is the stem-prefixed raw
label otherwise. -/
def LabelInv (m : List (String × BlockInfo)) : Prop :=
  ∀ p ∈ m, p.1 = (if pyStartsWith p.2.label (p.2.file ++ "-") then p.2.label
                  else (p.2.file ++ "-") ++ p.2.label)

lemma refFold_results {pre : String} (s : PFState) (ref : String) :
    (refFold pre s ref).results = s.results := by
  unfold refFold
  cases hfl : s.fullLabel with
  | none => simp [hfl]
  | some fl =>
    simp only [hfl]
    by_cases hg : PREFIXES.any (fun p =>
        pyStartsWith (refCheck (if pyContains ref '-' then ref
          else pre ++ ref)) p) = true
    · rw [if_pos hg]
    · rw [if_neg hg]

lemma foldl_refFold_results (pre : String) :
    ∀ (rs : List String) (st : PFState),
      (rs.foldl (refFold pre) st).results = st.results
  | [], _ => rfl
  | r :: rs, st => by
    rw [List.foldl_cons, foldl_refFold_results pre rs, refFold_results]

lemma parseLine_labelInv {name : String} {st : PFState} {line : String}
    (h : LabelInv st.results) : LabelInv (parseLine name st line).results := by
  unfold parseLine
  cases he : st.envType with
  | none =>
    cases hb : matchBegin (pyStrip line) with
    | none => simpa [he, hb] using h
    | some e => simpa [he, hb] using h
  | some env =>
    cases hl : (if st.fullLabel.isNone then matchLabel (pyStrip line)
        else none) with
    | some raw =>
      simp only [he, hl]
      intro p hp
      rcases mem_pyDictSet hp with hp | hp
      · exact h p hp
      · rw [hp]
    | none =>
      simp only [he, hl]
      by_cases hend : pyStartsWith (pyStrip line)
          ("\\end\x7b" ++ env ++ "\x7d") = true
      · rw [if_pos hend]
        show LabelInv ((findRefs (pyStrip line)).foldl
          (refFold (name ++ "-")) st).results
        rw [foldl_refFold_results]
        exact h
      · rw [if_neg hend]
        rw [foldl_refFold_results]
        exact h

lemma parseFile_labelInv {fs : FS} {name : String}
    {results : List (String × BlockInfo)} {edges : List (String × String)}
    (h : LabelInv results) :
    LabelInv (parseFile fs name results edges).1 := by
  unfold parseFile
  cases hf : fsFind fs (name ++ ".tex") with
  | none => simpa using h
  | some lines =>
    simp only
    exact @foldl_inv PFState String (fun st => LabelInv st.results)
      (parseLine name)
      (fun s b hs => parseLine_labelInv hs) lines ⟨none, none, results, edges⟩ h

/-- The target shape invariant of recorded edges: a target always contains
a dash, and its post-dash part passed the kind-prefix guard. -/
def TgtInv (edges : List (String × String)) : Prop :=
  ∀ p ∈ edges, pyContains p.2 '-' = true ∧
    PREFIXES.any (fun q => pyStartsWith (refCheck p.2) q) = true

lemma pyContains_dashed (a b : String) :
    pyContains ((a ++ "-") ++ b) '-' = true := by
  unfold pyContains
  rw [String.data_append, String.data_append]
  have hd : ("-" : String).data = ['-'] := rfl
  rw [hd]
  simp

lemma refFold_tgtInv {name : String} {s : PFState} {ref : String}
    (h : TgtInv s.edges) : TgtInv (refFold (name ++ "-") s ref).edges := by
  unfold refFold
  cases hfl : s.fullLabel with
  | none => simp only [hfl]; exact h
  | some fl =>
    simp only [hfl]
    by_cases hg : PREFIXES.any (fun p =>
        pyStartsWith (refCheck (if pyContains ref '-' then ref
          else (name ++ "-") ++ ref)) p) = true
    · rw [if_pos hg]
      intro p hp
      rcases List.mem_append.1 hp with hp | hp
      · exact h p hp
      · have hpe : p = (fl, if pyContains ref '-' then ref
            else (name ++ "-") ++ ref) := by simpa using hp
        rw [hpe]
        refine ⟨?_, hg⟩
        by_cases hd : pyContains ref '-' = true
        · rw [if_pos hd]; exact hd
        · have hd' : pyContains ref '-' = false := by simpa using hd
          simp only [hd', Bool.false_eq_true, if_false]
          exact pyContains_dashed name ref
    · rw [if_neg hg]
      exact h

lemma parseLine_tgtInv {name : String} {st : PFState} {line : String}
    (h : TgtInv st.edges) : TgtInv (parseLine name st line).edges := by
  unfold parseLine
  cases he : st.envType with
  | none =>
    cases hb : matchBegin (pyStrip line) with
    | none => simpa [he, hb] using h
    | some e => simpa [he, hb] using h
  | some env =>
    cases hl : (if st.fullLabel.isNone then matchLabel (pyStrip line)
        else none) with
    | some raw =>
      simp only [he, hl]
      exact h
    | none =>
      simp only [he, hl]
      have h1 : TgtInv ((findRefs (pyStrip line)).foldl
          (refFold (name ++ "-")) st).edges :=
        @foldl_inv PFState String (fun s => TgtInv s.edges)
          (refFold (name ++ "-"))
          (fun s b hs => refFold_tgtInv hs) _ st h
      by_cases hend : pyStartsWith (pyStrip line)
          ("\\end\x7b" ++ env ++ "\x7d") = true
      · rw [if_pos hend]
        exact h1
      · rw [if_neg hend]
        exact h1

lemma parseFile_tgtInv {fs : FS} {name : String}
    {results : List (String × BlockInfo)} {edges : List (String × String)}
    (h : TgtInv edges) : TgtInv (parseFile fs name results edges).2 := by
  unfold parseFile
  cases hf : fsFind fs (name ++ ".tex") with
  | none => simpa using h
  | some lines =>
    simp only
    exact @foldl_inv PFState String (fun st => TgtInv st.edges)
      (parseLine name)
      (fun s b hs => parseLine_tgtInv hs) lines ⟨none, none, results, edges⟩ h

/-- Every edge recorded by `build_graph` has a dash-containing target whose
post-dash part starts with a known kind-prefix. -/
lemma buildGraph_tgtInv {fs : FS} {r : List (String × BlockInfo)}
    {e : List (String × String)} (h : buildGraph fs = .ok (r, e)) :
    TgtInv e := by
  unfold buildGraph at h
  cases hl : listTextFiles fs with
  | error err => rw [hl] at h; simp at h
  | ok names =>
    rw [hl] at h
    simp only [Except.ok.injEq] at h
    have key := @foldl_inv
      (List (String × BlockInfo) × List (String × String)) String
      (fun acc => TgtInv acc.2)
      (fun acc n => parseFile fs n acc.1 acc.2)
      (fun s b hs => parseFile_tgtInv hs)
      names ([], []) (by intro p hp; simp at hp)
    have he2 : e = (names.foldl
        (fun acc n => parseFile fs n acc.1 acc.2) (([], []) :
          List (String × BlockInfo) × List (String × String))).2 := by
      rw [h]
    rw [he2]
    exact key

/-- Every block registered by `build_graph` obeys the stem-prefix rule. -/
lemma buildGraph_labelInv {fs : FS} {r : List (String × BlockInfo)}
    {e : List (String × String)} (h : buildGraph fs = .ok (r, e)) :
    LabelInv r := by
  unfold buildGraph at h
  cases hl : listTextFiles fs with
  | error err => rw [hl] at h; simp at h
  | ok names =>
    rw [hl] at h
    simp only [Except.ok.injEq] at h
    have key := @foldl_inv
      (List (String × BlockInfo) × List (String × String)) String
      (fun acc => LabelInv acc.1)
      (fun acc n => parseFile fs n acc.1 acc.2)
      (fun s b hs => parseFile_labelInv hs)
      names ([], []) (by intro p hp; simp at hp)
    have hr : r = (names.foldl
        (fun acc n => parseFile fs n acc.1 acc.2) (([], []) :
          List (String × BlockInfo) × List (String × String))).1 := by
      rw [h]
    rw [hr]
    exact key

/-!  ## The unbounded reachability traversal (visit of generate_dependency_tex) -/

/-- Both components of the `visit` state only ever grow at the end, the new
order entries are a permutation of the new visited entries, and the visited
set stays duplicate-free. -/
lemma visitF_ext (edges : List (String × String))
    (results : List (String × BlockInfo)) :
    ∀ (fuel : Nat) (n : String) (st : List String × List String),
      ∃ δ δ' : List String,
        (visitF edges results fuel n st).1 = st.1 ++ δ ∧
        (visitF edges results fuel n st).2 = st.2 ++ δ' ∧
        δ'.Perm δ ∧
        (st.1.Nodup → (st.1 ++ δ).Nodup) := by
  intro fuel
  induction fuel with
  | zero =>
    intro n st
    exact ⟨[], [], by simp [visitF], by simp [visitF], .refl _, by simp⟩
  | succ fuel ih =>
    intro n st
    by_cases hg : (st.1.contains n || !(pyDictMem results n)) = true
    · have hg2 : n ∈ st.1 ∨ pyDictMem results n = false := by simpa using hg
      exact ⟨[], [], by simp [visitF, hg2], by simp [visitF, hg2], .refl _,
        by simp⟩
    · have hfold : ∀ (deps : List String) (s : List String × List String),
          ∃ Δ Δ' : List String,
            (deps.foldl (fun s d => visitF edges results fuel d s) s).1
              = s.1 ++ Δ ∧
            (deps.foldl (fun s d => visitF edges results fuel d s) s).2
              = s.2 ++ Δ' ∧
            Δ'.Perm Δ ∧ (s.1.Nodup → (s.1 ++ Δ).Nodup) := by
        intro deps
        induction deps with
        | nil => intro s; exact ⟨[], [], by simp, by simp, .refl _, by simp⟩
        | cons d ds ihd =>
          intro s
          rcases ih d s with ⟨δ₁, δ₁', h1, h2, hperm1, hnd1⟩
          rcases ihd (visitF edges results fuel d s) with
            ⟨Δ₂, Δ₂', g1, g2, hperm2, hnd2⟩
          rw [h1] at g1 hnd2
          rw [h2] at g2
          refine ⟨δ₁ ++ Δ₂, δ₁' ++ Δ₂', ?_, ?_, hperm1.append hperm2, ?_⟩
          · rw [List.foldl_cons, g1, List.append_assoc]
          · rw [List.foldl_cons, g2, List.append_assoc]
          · intro hnd
            rw [← List.append_assoc]
            exact hnd2 (hnd1 hnd)
      rcases hfold (adjGet edges n) (st.1 ++ [n], st.2) with
        ⟨Δ, Δ', g1, g2, hperm, hnd⟩
      refine ⟨[n] ++ Δ, Δ' ++ [n], ?_, ?_, ?_, ?_⟩
      · show (visitF edges results (fuel + 1) n st).1 = st.1 ++ ([n] ++ Δ)
        simp only [visitF, if_neg hg]
        rw [g1, List.append_assoc]
      · show (visitF edges results (fuel + 1) n st).2 = st.2 ++ (Δ' ++ [n])
        simp only [visitF, if_neg hg]
        rw [g2, List.append_assoc]
      · exact (hperm.append_right [n]).trans (List.perm_append_comm)
      · intro hnd0
        have hor : n ∉ st.1 ∧ pyDictMem results n = true := by simpa using hg
        have hnmem : n ∉ st.1 := hor.1
        have hnd1 : (st.1 ++ [n]).Nodup := by
          rw [List.nodup_append]
          exact ⟨hnd0, List.nodup_singleton n,
            by simpa [List.disjoint_singleton] using hnmem⟩
        rw [← List.append_assoc]
        exact hnd (hnd1)

/-- From an empty start, the emission order of `visit` has no duplicates
and is a permutation of the visited set (each visited node appears in it
exactly once). -/
lemma visitF_perm_nodup (edges : List (String × String))
    (results : List (String × BlockInfo)) (fuel : Nat) (n : String) :
    (visitF edges results fuel n ([], [])).2.Perm
      (visitF edges results fuel n ([], [])).1 ∧
    (visitF edges results fuel n ([], [])).2.Nodup ∧
    (visitF edges results fuel n ([], [])).1.Nodup := by
  rcases visitF_ext edges results fuel n ([], []) with ⟨δ, δ', h1, h2, hperm, hnd⟩
  simp only [List.nil_append] at h1 h2
  have hndδ : δ.Nodup := by simpa using hnd List.nodup_nil
  rw [h1, h2]
  exact ⟨hperm, hperm.nodup_iff.2 hndδ, hndδ⟩

/-- The number of result keys not yet visited. -/
def unvisitedCount (results : List (String × BlockInfo))
    (visited : List String) : Nat :=
  ((results.map Prod.fst).filter (fun k => !(visited.contains k))).length

lemma unvisited_le (results : List (String × BlockInfo))
    {v₁ v₂ : List String} (h : ∀ x, x ∈ v₁ → x ∈ v₂) :
    unvisitedCount results v₂ ≤ unvisitedCount results v₁ := by
  refine length_filter_le_of_imp ?_ _
  intro a ha
  have : a ∉ v₂ := by simpa using ha
  have : a ∉ v₁ := fun hm => this (h a hm)
  simpa using this

lemma unvisited_lt (results : List (String × BlockInfo))
    {v : List String} {n : String}
    (hn : n ∈ results.map Prod.fst) (hnv : n ∉ v) :
    unvisitedCount results (v ++ [n]) < unvisitedCount results v := by
  refine length_filter_lt_of_imp ?_ ?_ ?_ hn
  · intro a ha
    have : a ∉ v ++ [n] := by simpa using ha
    have : a ∉ v := fun hm => this (List.mem_append_left _ hm)
    simpa using this
  · simpa using hnv
  · simp

/-- Fuel stability: any two fuels strictly above the number of unvisited
result keys give identical traversals (this is the sense in which the
unbounded Python recursion terminates). -/
lemma visitF_stable (edges : List (String × String))
    (results : List (String × BlockInfo)) :
    ∀ (f g : Nat) (n : String) (st : List String × List String),
      unvisitedCount results st.1 < f → unvisitedCount results st.1 < g →
      visitF edges results f n st = visitF edges results g n st := by
  intro f
  induction f using Nat.strong_induction_on with
  | _ f IH =>
    intro g n st hf hg
    cases f with
    | zero => exact absurd hf (Nat.not_lt_zero _)
    | succ f' =>
      cases g with
      | zero => exact absurd hg (Nat.not_lt_zero _)
      | succ g' =>
        by_cases hguard : (st.1.contains n || !(pyDictMem results n)) = true
        · have hg2 : n ∈ st.1 ∨ pyDictMem results n = false := by
            simpa using hguard
          simp [visitF, hg2]
        · have hor : n ∉ st.1 ∧ pyDictMem results n = true := by
            simpa using hguard
          have hnmem : n ∉ st.1 := hor.1
          have hmemres : pyDictMem results n = true := hor.2
          have hkey : n ∈ results.map Prod.fst := by
            rcases (pyDictMem_iff results n).1 hmemres with ⟨p, hp, hpk⟩
            exact hpk ▸ List.mem_map_of_mem Prod.fst hp
          have hlt := unvisited_lt results hkey hnmem
          have hU1 : unvisitedCount results (st.1 ++ [n]) < f' := by omega
          have hU2 : unvisitedCount results (st.1 ++ [n]) < g' := by omega
          have hfoldeq : ∀ (deps : List String)
              (s : List String × List String),
              unvisitedCount results s.1 < f' →
              unvisitedCount results s.1 < g' →
              deps.foldl (fun s d => visitF edges results f' d s) s =
              deps.foldl (fun s d => visitF edges results g' d s) s := by
            intro deps
            induction deps with
            | nil => intro s _ _; rfl
            | cons d ds ihd =>
              intro s hs1 hs2
              have heq : visitF edges results f' d s
                  = visitF edges results g' d s :=
                IH f' (Nat.lt_succ_self f') g' d s hs1 hs2
              rw [List.foldl_cons, List.foldl_cons, heq]
              rcases visitF_ext edges results g' d s with ⟨δ, _, h1, _, _, _⟩
              have hle : unvisitedCount results (visitF edges results g' d s).1
                  ≤ unvisitedCount results s.1 := by
                rw [h1]
                exact unvisited_le _ (fun x hx => List.mem_append_left _ hx)
              exact ihd _ (lt_of_le_of_lt hle hs1) (lt_of_le_of_lt hle hs2)
          have hfe := hfoldeq (adjGet edges n) (st.1 ++ [n], st.2) hU1 hU2
          simp only [visitF, if_neg hguard]
          rw [hfe]

/-!  ## The depth/kind-bounded traversal (DependencyGraphBuilder.build) -/

lemma ensureNode_mem_mono {ns : List String} {x : String} (y : String)
    (h : x ∈ ns) : x ∈ ensureNode ns y := by
  unfold ensureNode
  by_cases hc : ns.contains y = true
  · rw [if_pos hc]; exact h
  · rw [if_neg hc]; exact List.mem_append_left _ h

lemma ensureNode_mem_self (ns : List String) (x : String) :
    x ∈ ensureNode ns x := by
  unfold ensureNode
  by_cases hc : ns.contains x = true
  · rw [if_pos hc]
    simpa using hc
  · rw [if_neg hc]
    exact List.mem_append_right _ (by simp)

/-- The node set of the bounded traversal only ever grows. -/
lemma dfsB_nodes_mono (envs : List (String × StacksEnv)) (inc : Bool)
    (depth : Option Nat) :
    ∀ (fuel : Nat) (label : String) (d : Nat) (st : BuildState) (x : String),
      x ∈ st.nodes → x ∈ (dfsB envs inc depth fuel label d st).nodes := by
  intro fuel
  induction fuel with
  | zero => intro _ _ st x hx; simpa [dfsB] using hx
  | succ fuel ih =>
    intro label d st x hx
    simp only [dfsB]
    by_cases hv : st.visited.contains label = true
    · rw [if_pos hv]; exact hx
    · rw [if_neg hv]
      have hx1 : x ∈ (addNodeB { st with visited := st.visited ++ [label] }
          label).nodes := ensureNode_mem_mono _ hx
      by_cases hs : shouldStop envs inc depth label d = true
      · rw [if_pos hs]; exact hx1
      · rw [if_neg hs]
        cases he : pyDictGet? envs label with
        | none => exact hx1
        | some env =>
          refine @foldl_inv BuildState String
            (fun s => x ∈ s.nodes) _ ?_ env.refs _ hx1
          intro s b hsx
          dsimp only
          by_cases hb : (!(pyDictMem envs b)) = true
          · rw [if_pos hb]; exact hsx
          · rw [if_neg hb]
            exact ih b (d + 1) _ x
              (ensureNode_mem_mono _ (ensureNode_mem_mono _ hsx))

/-- An unvisited label passed to the traversal always ends up in the node
set, whether or not the stop check fires on it. -/
lemma dfsB_adds_label (envs : List (String × StacksEnv)) (inc : Bool)
    (depth : Option Nat) (fuel : Nat) (label : String) (d : Nat)
    (st : BuildState) (hv : st.visited.contains label = false) :
    label ∈ (dfsB envs inc depth (fuel + 1) label d st).nodes := by
  simp only [dfsB]
  rw [if_neg (by simpa using hv)]
  have h1 : label ∈ (addNodeB { st with visited := st.visited ++ [label] }
      label).nodes := ensureNode_mem_self _ _
  by_cases hs : shouldStop envs inc depth label d = true
  · rw [if_pos hs]; exact h1
  · rw [if_neg hs]
    cases he : pyDictGet? envs label with
    | none => exact h1
    | some env =>
      refine @foldl_inv BuildState String
        (fun s => label ∈ s.nodes) _ ?_ env.refs _ h1
      intro s b hsx
      dsimp only
      by_cases hb : (!(pyDictMem envs b)) = true
      · rw [if_pos hb]; exact hsx
      · rw [if_neg hb]
        exact dfsB_nodes_mono envs inc depth fuel b (d + 1) _ label
          (ensureNode_mem_mono _ (ensureNode_mem_mono _ hsx))

/-- When the stop check fires on an unvisited node, the traversal adds the
node itself and returns at once: no child is expanded and no edge out of
the node is recorded. -/
lemma dfsB_stop_shape (envs : List (String × StacksEnv)) (inc : Bool)
    (depth : Option Nat) (fuel : Nat) (label : String) (d : Nat)
    (st : BuildState) (hv : st.visited.contains label = false)
    (hs : shouldStop envs inc depth label d = true) :
    dfsB envs inc depth (fuel + 1) label d st
      = addNodeB { st with visited := st.visited ++ [label] } label := by
  simp only [dfsB]
  rw [if_neg (by simpa using hv), if_pos hs]

/-!  ## The round-trip property of _extract_environment -/

/-- The loop invariant of `_extract_environment`: once the loop has broken
(or would have raised) the accumulator is a contiguous slice of the lines
processed so far; while no environment is open it is empty; while an
environment is open it is the final run of the processed lines. -/
def ExtractInv (processed : List String) (st : ExtractState) : Prop :=
  ((st.done || st.err) = true → sliceOf st.acc processed) ∧
  ((st.done || st.err) = false → st.envType = none → st.acc = []) ∧
  ((st.done || st.err) = false → ∀ env, st.envType = some env →
    endSliceOf st.acc processed)

lemma extractStep_inv {target : String} {processed : List String}
    {st : ExtractState} {line : String} (h : ExtractInv processed st) :
    ExtractInv (processed ++ [line]) (extractStep target st line) := by
  unfold extractStep
  by_cases hde : (st.done || st.err) = true
  · rw [if_pos hde]
    refine ⟨fun _ => sliceOf_append_right _ (h.1 hde), ?_, ?_⟩
    · intro hf; rw [hf] at hde; simp at hde
    · intro hf; rw [hf] at hde; simp at hde
  · have hde' : (st.done || st.err) = false := by simpa using hde
    have hdone : st.done = false := by
      rcases Bool.or_eq_false_iff.1 hde' with ⟨h1, _⟩; exact h1
    have herr : st.err = false := by
      rcases Bool.or_eq_false_iff.1 hde' with ⟨_, h2⟩; exact h2
    rw [if_neg hde]
    by_cases hcol : st.collecting = true
    · rw [if_neg (by simp [hcol])]
      cases he : st.envType with
      | some env =>
        have hend : endSliceOf st.acc processed := h.2.2 hde' env he
        dsimp only
        by_cases hE : pyStartsWith line ("\\end\x7b" ++ env ++ "\x7d") = true
        · rw [if_pos hE]
          refine ⟨fun _ => endSliceOf_slice (endSliceOf_snoc _ hend), ?_, ?_⟩
          · intro hf; simp [hdone, herr] at hf
          · intro hf; simp [hdone, herr] at hf
        · rw [if_neg hE]
          refine ⟨?_, ?_, ?_⟩
          · intro hf; simp [hdone, herr] at hf
          · intro _ hn; simp [he] at hn
          · intro _ env' he'
            exact endSliceOf_snoc _ hend
      | none =>
        have hacc : st.acc = [] := h.2.1 hde' he
        dsimp only
        refine ⟨?_, ?_, ?_⟩
        · intro _
          rw [hacc]
          exact endSliceOf_slice (by simpa using endSliceOf_single processed line)
        · intro hf; simp [herr] at hf
        · intro hf; simp [herr] at hf
    · rw [if_pos (by simp [hcol])]
      cases he : st.envType with
      | none =>
        cases hb : matchBegin line with
        | some e =>
          dsimp only [hb]
          refine ⟨?_, ?_, ?_⟩
          · intro hf; simp [hdone, herr] at hf
          · intro _ hn; simp at hn
          · intro _ env' _
            exact endSliceOf_single processed line
        | none =>
          dsimp only [hb]
          refine ⟨?_, ?_, ?_⟩
          · intro hf; simp [hdone, herr] at hf
          · intro _ _
            exact h.2.1 hde' he
          · intro _ env' he'; rw [he] at he'; simp at he'
      | some env =>
        have hend : endSliceOf st.acc processed := h.2.2 hde' env he
        dsimp only
        by_cases hL : strContainsSub line ("\\label\x7b" ++ target ++ "\x7d")
            = true
        · rw [if_pos hL]
          by_cases hE : pyStartsWith line ("\\end\x7b" ++ env ++ "\x7d") = true
          · rw [if_pos hE]
            refine ⟨?_, ?_, ?_⟩
            · intro hf; simp [hdone, herr] at hf
            · intro _ _; rfl
            · intro _ env' he'; simp at he'
          · rw [if_neg hE]
            refine ⟨?_, ?_, ?_⟩
            · intro hf; simp [hdone, herr] at hf
            · intro _ hn; simp at hn
            · intro _ env' _
              exact endSliceOf_snoc _ hend
        · rw [if_neg hL]
          by_cases hE : pyStartsWith line ("\\end\x7b" ++ env ++ "\x7d") = true
          · rw [if_pos hE]
            refine ⟨?_, ?_, ?_⟩
            · intro hf; simp [hdone, herr] at hf
            · intro _ _; rfl
            · intro _ env' he'; simp at he'
          · rw [if_neg hE]
            refine ⟨?_, ?_, ?_⟩
            · intro hf; simp [hdone, herr] at hf
            · intro _ hn; simp at hn
            · intro _ env' _
              exact endSliceOf_snoc _ hend

lemma extract_fold_inv (target : String) :
    ∀ (lines : List String) (st : ExtractState) (processed : List String),
      ExtractInv processed st →
      ExtractInv (processed ++ lines) (lines.foldl (extractStep target) st)
  | [], st, p, h => by simpa using h
  | l :: ls, st, p, h => by
    have h1 := @extractStep_inv target p st l h
    have h2 := extract_fold_inv target ls (extractStep target st l) (p ++ [l]) h1
    simpa using h2

/-- Whatever `_extract_environment` returns without raising is a contiguous
slice of the scanned file's lines, hence byte-identical to a run of
original source lines. -/
lemma extractCore_slice {lines : List String} {target : String}
    {out : List String} (h : extractCore lines target = .ok out) :
    sliceOf out lines := by
  unfold extractCore at h
  have base : ExtractInv [] ⟨false, none, [], false, false⟩ := by
    refine ⟨?_, ?_, ?_⟩
    · intro hf; simp at hf
    · intro _ _; rfl
    · intro _ env he; simp at he
  have hinv := extract_fold_inv target lines ⟨false, none, [], false, false⟩ [] base
  simp only [List.nil_append] at hinv
  set stf := lines.foldl (extractStep target) ⟨false, none, [], false, false⟩
  by_cases herr : stf.err = true
  · rw [if_pos herr] at h
    simp at h
  · have herr' : stf.err = false := by simpa using herr
    rw [if_neg herr] at h
    simp only [Except.ok.injEq] at h
    rw [← h]
    by_cases hdone : stf.done = true
    · exact hinv.1 (by simp [hdone])
    · have hdone' : stf.done = false := by simpa using hdone
      cases he : stf.envType with
      | none =>
        rw [hinv.2.1 (by simp [hdone', herr']) he]
        exact sliceOf_nil _
      | some env =>
        exact endSliceOf_slice (hinv.2.2 (by simp [hdone', herr']) env he)

/-!  ## Snippet retention and header search in scan_mathlib -/

/-- A snippet registration never disturbs an already-bound label. -/
lemma addSnippet_preserve {res : List (String × String)} {k : String}
    {s : String} (label : String) (lines : List String) (start i : Nat)
    (h : pyDictGet? res k = some s) :
    pyDictGet? (addSnippet res label lines start i) k = some s :=
  pyDictGet?_pySetdefault_preserve _ _ h

/-- Processing one more line of the secondary corpus never disturbs an
already-bound label. -/
lemma processScanLine_preserve {tm : List (String × String)}
    {lines : List String} {res : List (String × String)} {k : String}
    {s : String} (i : Nat) (h : pyDictGet? res k = some s) :
    pyDictGet? (processScanLine tm lines res i) k = some s := by
  unfold processScanLine
  cases scanLineMatch (lines.getD i "") with
  | none => exact h
  | some tagRaw =>
    dsimp only
    cases pyDictGet? tm (pyToUpper tagRaw) with
    | none => exact h
    | some label =>
      dsimp only
      by_cases hlab : label = ""
      · rw [if_pos hlab]
        exact h
      · rw [if_neg hlab]
        cases backSearch lines i with
        | some j => exact addSnippet_preserve label lines j i h
        | none =>
          dsimp only
          cases fwdSearch lines i with
          | some j => exact addSnippet_preserve label lines j i h
          | none => exact h

/-- Scanning one more file never disturbs an already-bound label: across the
whole of `scan_mathlib`, the first snippet found for a label wins. -/
lemma scanFileStep_preserve {tm : List (String × String)}
    {res : List (String × String)} {k : String} {s : String}
    (f : String × List String) (h : pyDictGet? res k = some s) :
    pyDictGet? (scanFileStep tm res f) k = some s := by
  unfold scanFileStep
  by_cases he : pyEndsWith f.1 ".lean" = true
  · rw [if_pos he]
    exact @foldl_inv (List (String × String)) Nat
      (fun m => pyDictGet? m k = some s)
      (processScanLine tm f.2)
      (fun m i hm => processScanLine_preserve i hm) _ res h
  · rw [if_neg he]
    exact h

/-- One unfolding step of the backward header search. -/
lemma backSearch_succ (lines : List String) (i : Nat) :
    backSearch lines (i + 1) =
      if envTest (lines.getD (i + 1) "") = true then some (i + 1)
      else backSearch lines i := by
  unfold backSearch
  rw [List.range_succ, List.reverse_append, List.reverse_singleton,
    List.singleton_append]
  by_cases h : envTest (lines.getD (i + 1) "") = true
  · rw [if_pos h]
    exact List.find?_cons_of_pos _ h
  · rw [if_neg h]
    exact List.find?_cons_of_neg _ h

lemma backSearch_zero (lines : List String) :
    backSearch lines 0 =
      if envTest (lines.getD 0 "") = true then some 0 else none := by
  unfold backSearch
  rw [List.range_succ, List.range_zero, List.nil_append,
    List.reverse_singleton]
  by_cases h : envTest (lines.getD 0 "") = true
  · rw [if_pos h]
    exact List.find?_cons_of_pos _ h
  · rw [if_neg h]
    have hgen : ∀ (p : Nat → Bool), ¬ p 0 = true → List.find? p [0] = none := by
      intro p hp
      rw [List.find?_cons_of_neg _ hp]
      rfl
    exact hgen _ h

/-- The backward search finds the nearest declaration header at or before
the match line: the found index is maximal among header lines `≤ i`. -/
lemma backSearch_spec {lines : List String} :
    ∀ {i j : Nat}, backSearch lines i = some j →
      j ≤ i ∧ envTest (lines.getD j "") = true ∧
      ∀ k, j < k → k ≤ i → envTest (lines.getD k "") = false := by
  intro i
  induction i with
  | zero =>
    intro j h
    rw [backSearch_zero] at h
    by_cases h0 : envTest (lines.getD 0 "") = true
    · rw [if_pos h0] at h
      cases h
      exact ⟨Nat.le_refl _, h0, fun k hk1 hk2 => absurd (Nat.lt_of_lt_of_le hk1 hk2) (Nat.lt_irrefl _)⟩
    · rw [if_neg h0] at h
      cases h
  | succ i ih =>
    intro j h
    rw [backSearch_succ] at h
    by_cases hi : envTest (lines.getD (i + 1) "") = true
    · rw [if_pos hi] at h
      cases h
      refine ⟨Nat.le_refl _, hi, fun k hk1 hk2 => ?_⟩
      exact absurd (Nat.lt_of_lt_of_le hk1 hk2) (Nat.lt_irrefl _)
    · rw [if_neg hi] at h
      rcases ih h with ⟨hj1, hj2, hj3⟩
      refine ⟨Nat.le_succ_of_le hj1, hj2, fun k hk1 hk2 => ?_⟩
      rcases Nat.lt_or_ge k (i + 1) with hk | hk
      · exact hj3 k hk1 (Nat.lt_succ_iff.1 hk)
      · have : k = i + 1 := Nat.le_antisymm hk2 hk
        rw [this]
        simpa using hi

/-- The forward fallback search only returns header line indices at or
after the match line and inside the file. -/
lemma fwdSearch_spec {lines : List String} {i j : Nat}
    (h : fwdSearch lines i = some j) :
    i ≤ j ∧ j < lines.length ∧ envTest (lines.getD j "") = true := by
  unfold fwdSearch at h
  have hmem := List.mem_of_find?_eq_some h
  have htest := List.find?_some h
  rw [List.mem_range'_1] at hmem
  exact ⟨hmem.1, by omega, htest⟩

/-- When the header is found at or before the match line, the captured
window spans from the header line through the match line plus two trailing
lines, clamped to the end of the file: it is the corresponding contiguous
slice, of the expected length, starting at the header line and containing
the match line at its expected offset. -/
lemma snippetWindow_spec {lines : List String} {start i : Nat}
    (hsi : start ≤ i) (hi : i < lines.length) :
    snippetWindow lines start i
        = (lines.take (min lines.length (i + 3))).drop start ∧
    (snippetWindow lines start i).length
        = min lines.length (i + 3) - start ∧
    (snippetWindow lines start i).head? = lines[start]? ∧
    (snippetWindow lines start i)[i - start]? = lines[i]? := by
  have hmin_gt : i < min lines.length (i + 3) := by omega
  have h1 : snippetWindow lines start i
      = (lines.take (min lines.length (i + 3))).drop start := by
    unfold snippetWindow
    rw [List.drop_take]
  have h2 : (snippetWindow lines start i).length
      = min lines.length (i + 3) - start := by
    unfold snippetWindow
    rw [List.length_take, List.length_drop]
    omega
  refine ⟨h1, h2, ?_, ?_⟩
  · rw [List.head?_eq_getElem?]
    unfold snippetWindow
    rw [List.getElem?_take, List.getElem?_drop]
    have : 0 < min lines.length (i + 3) - start := by omega
    rw [if_pos this]
    simp
  · unfold snippetWindow
    rw [List.getElem?_take, List.getElem?_drop]
    have : i - start < min lines.length (i + 3) - start := by omega
    rw [if_pos this]
    have : start + (i - start) = i := by omega
    rw [this]

/-- When a tag resolves but no declaration header exists in either
direction, the match is skipped entirely (as it also is for an empty
label, which the falsy guard drops before any search). -/
lemma processScanLine_skip {tm : List (String × String)}
    {lines : List String} {res : List (String × String)} {i : Nat}
    {tag label : String}
    (hm : scanLineMatch (lines.getD i "") = some tag)
    (hl : pyDictGet? tm (pyToUpper tag) = some label)
    (hb : backSearch lines i = none) (hf : fwdSearch lines i = none) :
    processScanLine tm lines res i = res := by
  unfold processScanLine
  rw [hm]
  dsimp only
  rw [hl]
  dsimp only
  by_cases hlab : label = ""
  · rw [if_pos hlab]
  · rw [if_neg hlab]
    rw [hb]
    dsimp only
    rw [hf]

/-- A tag the registry maps to the empty string is skipped by the falsy
resolution guard before any header search. -/
lemma processScanLine_empty {tm : List (String × String)}
    {lines : List String} {res : List (String × String)} {i : Nat}
    {tag : String}
    (hm : scanLineMatch (lines.getD i "") = some tag)
    (hl : pyDictGet? tm (pyToUpper tag) = some "") :
    processScanLine tm lines res i = res := by
  unfold processScanLine
  rw [hm]
  dsimp only
  rw [hl]
  dsimp only
  rw [if_pos rfl]

/-- When the tag resolves to a non-empty label and the backward search
succeeds, the retained snippet is exactly the joined window from the found
header line. -/
lemma processScanLine_back {tm : List (String × String)}
    {lines : List String} {res : List (String × String)} {i j : Nat}
    {tag label : String}
    (hm : scanLineMatch (lines.getD i "") = some tag)
    (hl : pyDictGet? tm (pyToUpper tag) = some label)
    (hne : label ≠ "")
    (hb : backSearch lines i = some j) :
    processScanLine tm lines res i = addSnippet res label lines j i := by
  unfold processScanLine
  rw [hm]
  dsimp only
  rw [hl]
  dsimp only
  rw [if_neg hne]
  rw [hb]

/-!  ## Concrete corpora used to settle the claims -/

/-- A one-document corpus whose lemma's raw label carries a kind-prefix. -/
def fsKind : FS := [("Makefile", ["LIJST = sample"]),
  ("sample.tex", ["\\begin{lemma}", "\\label{lemma-foo}", "\\end{lemma}"])]

/-- A one-document corpus with a citation of an unregistered label. -/
def fsDangling : FS := [("Makefile", ["LIJST = sample"]),
  ("sample.tex", ["\\begin{lemma}", "\\label{lemma-a}",
    "\\ref{other-lemma-b}", "\\end{lemma}"])]

/-- A manifest naming one present and one absent document. -/
def fsPartial : FS := [("Makefile", ["LIJST = foo bar"]),
  ("foo.tex", ["\\begin{lemma}", "\\label{lemma-x}", "\\end{lemma}"])]

/-- A corpus holding a document but no Makefile manifest. -/
def fsNoMakefile : FS :=
  [("sample.tex", ["\\begin{lemma}", "\\label{lemma-a}", "\\end{lemma}"])]

/-- The tag registry of the secondary-corpus scenarios. -/
def demoTagMap : List (String × String) := [("0001", "label-foo")]

/-- A secondary corpus whose only tag match sits four lines before the
nearest declaration header. -/
def fsFarHeader : FS := [("test.lean",
  ["-- https://stacks.math.columbia.edu/tag/0001", "-- a", "-- b", "-- c",
   "lemma foo : True := trivial"])]

/-- A secondary-corpus file with two declarations carrying the same tag. -/
def demoTwice : List String :=
  ["@[stacks 0001]", "lemma first : True := trivial", "",
   "@[stacks 0001]", "lemma second : True := trivial"]

/-- A secondary-corpus file whose declaration header precedes the tag
match. -/
def demoBackLines : List String :=
  ["lemma g : True := trivial", "-- Stacks Tag 0001"]

/-- The cyclic-citation scenario: block A cites B and B cites A. -/
def cycleResults : List (String × BlockInfo) :=
  [("A", ⟨"lemma", "doc", "lemma-a"⟩), ("B", ⟨"lemma", "doc", "lemma-b"⟩)]

/-- The two edges of the cyclic-citation scenario. -/
def cycleEdges : List (String × String) := [("A", "B"), ("B", "A")]

/-- The chain scenario root → a → b → c, with `a` of kind definition. -/
def chainEnvs : List (String × StacksEnv) :=
  [("root", ⟨"lemma", "root", "f", [], ["a"]⟩),
   ("a", ⟨"definition", "a", "f", [], ["b"]⟩),
   ("b", ⟨"lemma", "b", "f", [], ["c"]⟩),
   ("c", ⟨"lemma", "c", "f", [], []⟩)]

/-!  ## Claim theorems -/

/-- C1 counterexample: with document stem `sample`, the raw label
`lemma-foo` is already prefixed with the known kind-prefix `lemma-`, yet
`parse_file` does not register it verbatim; it is registered under
`sample-lemma-foo`, because the verbatim test compares against the
document-stem prefix, never against the kind-prefixes. -/
theorem c1_label_qualification_cx :
    buildGraph fsKind
      = .ok ([("sample-lemma-foo", ⟨"lemma", "sample", "lemma-foo"⟩)], []) ∧
    pyStartsWith "lemma-foo" "lemma-" = true ∧
    pyDictMem [("sample-lemma-foo",
      (⟨"lemma", "sample", "lemma-foo"⟩ : BlockInfo))] "lemma-foo" = false := by
  refine ⟨rfl, by decide, by decide⟩

/-- C1 (amended): a block is registered under its raw label verbatim
exactly when the raw label already starts with the document stem followed
by the separator — not when it carries a kind-prefix; otherwise the key is
the stem-prefixed raw label.  Citation targets containing the separator
are used verbatim and bare ones are stem-prefixed, so every recorded edge
target contains the separator and its post-separator part passed the
kind-prefix test. -/
theorem c1_label_qualification {fs : FS} {r : List (String × BlockInfo)}
    {e : List (String × String)} (h : buildGraph fs = .ok (r, e)) :
    (∀ p ∈ r, p.1 = (if pyStartsWith p.2.label (p.2.file ++ "-")
        then p.2.label else (p.2.file ++ "-") ++ p.2.label)) ∧
    (∀ p ∈ e, pyContains p.2 '-' = true ∧
        PREFIXES.any (fun q => pyStartsWith (refCheck p.2) q) = true) :=
  ⟨buildGraph_labelInv h, buildGraph_tgtInv h⟩

/-- C1 witness: the amended statement evaluated on the kind-prefixed
corpus. -/
theorem c1_label_qualification_witness :
    (∀ p ∈ [("sample-lemma-foo",
        (⟨"lemma", "sample", "lemma-foo"⟩ : BlockInfo))],
      p.1 = (if pyStartsWith p.2.label (p.2.file ++ "-") then p.2.label
        else (p.2.file ++ "-") ++ p.2.label)) ∧
    (∀ p ∈ ([] : List (String × String)), pyContains p.2 '-' = true ∧
        PREFIXES.any (fun q => pyStartsWith (refCheck p.2) q) = true) :=
  @c1_label_qualification fsKind
    [("sample-lemma-foo", ⟨"lemma", "sample", "lemma-foo"⟩)] [] rfl

/-- C2 counterexample: the structured JSON export of `main` dumps the raw
edge list unfiltered, so an edge whose target was never registered is
emitted even though the target is outside the node set. -/
theorem c2_exported_edges_cx :
    buildGraph fsDangling
      = .ok ([("sample-lemma-a", ⟨"lemma", "sample", "lemma-a"⟩)],
          [("sample-lemma-a", "other-lemma-b")]) ∧
    (writeJson [("sample-lemma-a", ⟨"lemma", "sample", "lemma-a"⟩)]
        [("sample-lemma-a", "other-lemma-b")]).2
      = [("sample-lemma-a", "other-lemma-b")] ∧
    pyDictMem [("sample-lemma-a",
      (⟨"lemma", "sample", "lemma-a"⟩ : BlockInfo))] "other-lemma-b"
      = false := by
  refine ⟨rfl, rfl, by decide⟩

/-- C2 (amended): the DOT-like export never emits a dangling edge — both
endpoints of every emitted edge are in the node set — while the structured
JSON export writes the raw edge list, whose sources are always in the node
set but whose targets need not be. -/
theorem c2_exported_edges {fs : FS} {r : List (String × BlockInfo)}
    {e : List (String × String)} (h : buildGraph fs = .ok (r, e)) :
    (∀ p ∈ writeDotEdges r e,
      pyDictMem r p.1 = true ∧ pyDictMem r p.2 = true) ∧
    (∀ p ∈ (writeJson r e).2, pyDictMem r p.1 = true) := by
  constructor
  · intro p hp
    have hp' : p ∈ e.filter (fun q => pyDictMem r q.2) := hp
    exact ⟨buildGraph_src_inv h p (List.mem_of_mem_filter hp'),
      (List.mem_filter.1 hp').2⟩
  · intro p hp
    exact buildGraph_src_inv h p hp

/-- C2 witness: the amended statement evaluated on the dangling-citation
corpus. -/
theorem c2_exported_edges_witness :
    (∀ p ∈ writeDotEdges
        [("sample-lemma-a", (⟨"lemma", "sample", "lemma-a"⟩ : BlockInfo))]
        [("sample-lemma-a", "other-lemma-b")],
      pyDictMem [("sample-lemma-a",
        (⟨"lemma", "sample", "lemma-a"⟩ : BlockInfo))] p.1 = true ∧
      pyDictMem [("sample-lemma-a",
        (⟨"lemma", "sample", "lemma-a"⟩ : BlockInfo))] p.2 = true) ∧
    (∀ p ∈ (writeJson
        [("sample-lemma-a", (⟨"lemma", "sample", "lemma-a"⟩ : BlockInfo))]
        [("sample-lemma-a", "other-lemma-b")]).2,
      pyDictMem [("sample-lemma-a",
        (⟨"lemma", "sample", "lemma-a"⟩ : BlockInfo))] p.1 = true) :=
  @c2_exported_edges fsDangling
    [("sample-lemma-a", ⟨"lemma", "sample", "lemma-a"⟩)]
    [("sample-lemma-a", "other-lemma-b")] rfl

/-- C10: every edge returned by `build_graph` has its source registered in
the block mapping — an edge is only recorded after the enclosing block was
registered — and therefore the DOT exporter, which filters emitted edges
on the target alone, never emits an edge whose source is outside the node
set. -/
theorem c10_edge_sources {fs : FS} {r : List (String × BlockInfo)}
    {e : List (String × String)} (h : buildGraph fs = .ok (r, e)) :
    (∀ p ∈ e, pyDictMem r p.1 = true) ∧
    (∀ p ∈ writeDotEdges r e, pyDictMem r p.1 = true) := by
  refine ⟨buildGraph_src_inv h, ?_⟩
  intro p hp
  have hp' : p ∈ e.filter (fun q => pyDictMem r q.2) := hp
  exact buildGraph_src_inv h p (List.mem_of_mem_filter hp')

/-- C10 witness: the statement evaluated on the dangling-citation corpus,
whose one edge has a registered source. -/
theorem c10_edge_sources_witness :
    (∀ p ∈ [("sample-lemma-a", "other-lemma-b")],
      pyDictMem [("sample-lemma-a",
        (⟨"lemma", "sample", "lemma-a"⟩ : BlockInfo))] p.1 = true) ∧
    (∀ p ∈ writeDotEdges
        [("sample-lemma-a", (⟨"lemma", "sample", "lemma-a"⟩ : BlockInfo))]
        [("sample-lemma-a", "other-lemma-b")],
      pyDictMem [("sample-lemma-a",
        (⟨"lemma", "sample", "lemma-a"⟩ : BlockInfo))] p.1 = true) :=
  @c10_edge_sources fsDangling
    [("sample-lemma-a", ⟨"lemma", "sample", "lemma-a"⟩)]
    [("sample-lemma-a", "other-lemma-b")] rfl

/-- C7 counterexample: a corpus with a present document but no manifest:
`list_text_files` opens the Makefile unconditionally, so `build_graph`
raises instead of completing with the present documents. -/
theorem c7_missing_manifest_cx : buildGraph fsNoMakefile = .error () := rfl

/-- C7 (amended): a missing manifest-referenced document file is non-fatal
— `parse_file` silently skips it and parsing completes for the documents
that are present — but a missing manifest file itself is fatal:
`build_graph` fails on it rather than completing. -/
theorem c7_missing_inputs :
    (∀ (fs : FS) (name : String) (r : List (String × BlockInfo))
       (e : List (String × String)),
      fsFind fs (name ++ ".tex") = none → parseFile fs name r e = (r, e)) ∧
    buildGraph fsNoMakefile = .error () ∧
    buildGraph fsPartial
      = .ok ([("foo-lemma-x", ⟨"lemma", "foo", "lemma-x"⟩)], []) := by
  refine ⟨?_, rfl, rfl⟩
  intro fs name r e h
  unfold parseFile
  rw [h]

/-- C7 witness: skipping the absent document `bar` of the partial corpus
leaves the accumulators untouched. -/
theorem c7_missing_inputs_witness :
    parseFile fsPartial "bar" [] [] = ([], []) :=
  c7_missing_inputs.1 fsPartial "bar" [] [] rfl

/-- C8 counterexample: `generate_dependency_tex` requested for a label
outside the block universe does not fail: it silently produces a document
with no blocks at all. -/
theorem c8_unknown_root_cx :
    generateDependencyTex [] "nope" [] [] []
      = .ok ("\\documentclass\x7barticle\x7d\n\\begin\x7bdocument\x7d\n"
          ++ "\\end\x7bdocument\x7d\n") := rfl

/-- C8 (amended): the interleaved builder does fail on an unknown root
label with the `Unknown label` KeyError, but `generate_dependency_tex`
silently emits an empty composite document for an unknown label instead of
failing. -/
theorem c8_unknown_root {envs : List (String × StacksEnv)} {inc : Bool}
    {depth : Option Nat} {root : String} (h : pyDictMem envs root = false) :
    buildB envs inc depth root
      = .error ("Unknown label " ++ root ++ " in Stacks data") ∧
    generateDependencyTex [] "nope" [] [] []
      = .ok ("\\documentclass\x7barticle\x7d\n\\begin\x7bdocument\x7d\n"
          ++ "\\end\x7bdocument\x7d\n") := by
  refine ⟨?_, rfl⟩
  unfold buildB
  rw [if_pos (by simp [h])]

/-- C8 witness: the amended statement at the chain scenario and an unknown
root. -/
theorem c8_unknown_root_witness :
    buildB chainEnvs true none "zzz"
      = .error ("Unknown label " ++ "zzz" ++ " in Stacks data") ∧
    generateDependencyTex [] "nope" [] [] []
      = .ok ("\\documentclass\x7barticle\x7d\n\\begin\x7bdocument\x7d\n"
          ++ "\\end\x7bdocument\x7d\n") :=
  @c8_unknown_root chainEnvs true none "zzz" (by decide)

lemma unvisitedCount_nil (results : List (String × BlockInfo)) :
    unvisitedCount results [] = results.length := by
  simp [unvisitedCount]

/-- C3: the unbounded reachability traversal with the visited-set
short-circuit always yields a duplicate-free emission order listing each
visited node exactly once; any fuel above the number of result keys gives
the same traversal, which is the sense in which the unbounded Python
recursion terminates; and on the two-block cycle where A cites B and B
cites A, the traversal from A terminates with both blocks visited exactly
once and an emission order with no duplicates. -/
theorem c3_cycle_traversal :
    (∀ (edges : List (String × String)) (results : List (String × BlockInfo))
        (fuel : Nat) (n : String),
      (visitF edges results fuel n ([], [])).2.Nodup ∧
      (visitF edges results fuel n ([], [])).2.Perm
        (visitF edges results fuel n ([], [])).1) ∧
    (∀ (edges : List (String × String)) (results : List (String × BlockInfo))
        (f g : Nat) (n : String),
      results.length < f → results.length < g →
      visitF edges results f n ([], []) = visitF edges results g n ([], [])) ∧
    visitF cycleEdges cycleResults (cycleResults.length + 1) "A" ([], [])
      = (["A", "B"], ["B", "A"]) := by
  refine ⟨?_, ?_, rfl⟩
  · intro edges results fuel n
    rcases visitF_perm_nodup edges results fuel n with ⟨hp, hn, _⟩
    exact ⟨hn, hp⟩
  · intro edges results f g n hf hg
    apply visitF_stable
    · show unvisitedCount results [] < f
      rw [unvisitedCount_nil]
      exact hf
    · show unvisitedCount results [] < g
      rw [unvisitedCount_nil]
      exact hg

/-- C3 witness: on the cyclic scenario, fuel 3 and fuel 100 agree. -/
theorem c3_cycle_traversal_witness :
    visitF cycleEdges cycleResults 3 "A" ([], [])
      = visitF cycleEdges cycleResults 100 "A" ([], []) :=
  c3_cycle_traversal.2.1 cycleEdges cycleResults 3 100 "A" (by decide)
    (by decide)

/-- C4: in the depth/kind-bounded traversal the stop check runs after the
node is added but before its children are expanded, so an unvisited label
always enters the node set, and when the stop check fires the traversal
returns with the node added and nothing else changed (children unexpanded,
no outgoing edges); concretely, on the chain root → a → b → c with `a` of
kind definition, the default traversal from root yields exactly the nodes
root and a, and with the kind-stop disabled it yields all four nodes. -/
theorem c4_bounded_stop :
    (∀ (envs : List (String × StacksEnv)) (inc : Bool) (depth : Option Nat)
        (fuel : Nat) (label : String) (d : Nat) (st : BuildState),
      st.visited.contains label = false →
      label ∈ (dfsB envs inc depth (fuel + 1) label d st).nodes) ∧
    (∀ (envs : List (String × StacksEnv)) (inc : Bool) (depth : Option Nat)
        (fuel : Nat) (label : String) (d : Nat) (st : BuildState),
      st.visited.contains label = false →
      shouldStop envs inc depth label d = true →
      dfsB envs inc depth (fuel + 1) label d st
        = addNodeB { st with visited := st.visited ++ [label] } label) ∧
    buildB chainEnvs true none "root"
      = .ok ⟨["root", "a"], ["root", "a"], [("root", "a")]⟩ ∧
    buildB chainEnvs false none "root"
      = .ok ⟨["root", "a", "b", "c"], ["root", "a", "b", "c"],
          [("root", "a"), ("a", "b"), ("b", "c")]⟩ := by
  refine ⟨?_, ?_, rfl, rfl⟩
  · intro envs inc depth fuel label d st hv
    exact dfsB_adds_label envs inc depth fuel label d st hv
  · intro envs inc depth fuel label d st hv hs
    exact dfsB_stop_shape envs inc depth fuel label d st hv hs

/-- C4 witness: visiting the definition node `a` of the chain at depth 1
adds it and stops. -/
theorem c4_bounded_stop_witness :
    "a" ∈ (dfsB chainEnvs true none 5 "a" 1
        ⟨["root"], ["root"], [("root", "a")]⟩).nodes ∧
    dfsB chainEnvs true none 5 "a" 1 ⟨["root"], ["root"], [("root", "a")]⟩
      = addNodeB ⟨["root", "a"], ["root"], [("root", "a")]⟩ "a" :=
  ⟨c4_bounded_stop.1 chainEnvs true none 4 "a" 1
      ⟨["root"], ["root"], [("root", "a")]⟩ (by decide),
   c4_bounded_stop.2.1 chainEnvs true none 4 "a" 1
      ⟨["root"], ["root"], [("root", "a")]⟩ (by decide) (by decide)⟩

/-- C5 counterexample: `LeanParser._parse_lean_file` retains the last
snippet for a repeated tag — the second declaration overwrites the first —
contradicting the claim that every later match for an already-resolved
label is ignored. -/
theorem c5_snippet_retention_cx :
    leanParseFile "f.lean" demoTwice []
      = [("0001", ⟨"0001", "f.lean", 5,
          ["lemma second : True := trivial"]⟩)] ∧
    (["lemma second : True := trivial"] : List String)
      ≠ ["lemma first : True := trivial"] := by
  refine ⟨rfl, by decide⟩

/-- C5 (amended): in `scan_mathlib` the first snippet found for a label
does win — a label bound at any point of the file fold keeps its snippet
to the end of the scan — but in the interleaved script's `LeanParser` a
later match for the same tag overwrites the earlier snippet (last-found
wins). -/
theorem c5_snippet_retention :
    (∀ (files : FS) (tm res : List (String × String)) (k s : String),
      pyDictGet? res k = some s →
      pyDictGet? (files.foldl (scanFileStep tm) res) k = some s) ∧
    leanParseFile "f.lean" demoTwice []
      = [("0001", ⟨"0001", "f.lean", 5,
          ["lemma second : True := trivial"]⟩)] := by
  refine ⟨?_, rfl⟩
  intro files tm res k s h
  exact @foldl_inv (List (String × String)) (String × List String)
    (fun m => pyDictGet? m k = some s)
    (scanFileStep tm)
    (fun m f hm => scanFileStep_preserve f hm) files res h

/-- C5 witness: a label bound before the fold keeps its value once a new
file carrying the same tag is scanned. -/
theorem c5_snippet_retention_witness :
    pyDictGet? (([("a.lean", ["@[stacks 0001]",
        "lemma g : True := trivial"])] : FS).foldl
      (scanFileStep demoTagMap) [("label-foo", "first")]) "label-foo"
      = some "first" :=
  c5_snippet_retention.1 [("a.lean", ["@[stacks 0001]",
    "lemma g : True := trivial"])] demoTagMap [("label-foo", "first")]
    "label-foo" "first" rfl

/-- C6 counterexample: with the tag match on line 0 and the nearest header
found only by the forward fallback on line 4, the captured slice
`lines[4 : min(5, 0+3)]` is empty, so the retained snippet is a bare
newline that does not span the found header line (nor the match line). -/
theorem c6_snippet_window_cx :
    scanMathlib fsFarHeader demoTagMap = [("label-foo", "\n")] ∧
    strContainsSub "\n" "lemma" = false := by
  refine ⟨rfl, by decide⟩

/-- C6 (amended): the scanner searches backward from the match line for
the nearest declaration header, falls back to the forward search, and
skips the match when no header exists in either direction (a tag the
registry maps to an empty label is likewise skipped by the falsy
resolution guard, before any search); when the tag resolves to a
non-empty label and a header is found the retained snippet is the joined
window `lines[j : min(len, i+3)]`, which — whenever the header lies at or
before the match line — spans the header line through the match line plus
two trailing lines clamped to the file end; a header found only forward,
more than two lines past the match, yields a truncated or empty window. -/
theorem c6_snippet_window :
    (∀ (lines : List String) (i j : Nat), backSearch lines i = some j →
      j ≤ i ∧ envTest (lines.getD j "") = true ∧
      ∀ k, j < k → k ≤ i → envTest (lines.getD k "") = false) ∧
    (∀ (tm : List (String × String)) (lines : List String)
        (res : List (String × String)) (i : Nat) (tag label : String),
      scanLineMatch (lines.getD i "") = some tag →
      pyDictGet? tm (pyToUpper tag) = some label →
      backSearch lines i = none → fwdSearch lines i = none →
      processScanLine tm lines res i = res) ∧
    (∀ (tm : List (String × String)) (lines : List String)
        (res : List (String × String)) (i : Nat) (tag : String),
      scanLineMatch (lines.getD i "") = some tag →
      pyDictGet? tm (pyToUpper tag) = some "" →
      processScanLine tm lines res i = res) ∧
    (∀ (tm : List (String × String)) (lines : List String)
        (res : List (String × String)) (i j : Nat) (tag label : String),
      scanLineMatch (lines.getD i "") = some tag →
      pyDictGet? tm (pyToUpper tag) = some label → label ≠ "" →
      backSearch lines i = some j →
      processScanLine tm lines res i = addSnippet res label lines j i) ∧
    (∀ (lines : List String) (start i : Nat), start ≤ i → i < lines.length →
      (snippetWindow lines start i).head? = lines[start]? ∧
      (snippetWindow lines start i)[i - start]? = lines[i]? ∧
      (snippetWindow lines start i).length
        = min lines.length (i + 3) - start) := by
  refine ⟨?_, ?_, ?_, ?_, ?_⟩
  · intro lines i j h
    exact backSearch_spec h
  · intro tm lines res i tag label hm hl hb hf
    exact processScanLine_skip hm hl hb hf
  · intro tm lines res i tag hm hl
    exact processScanLine_empty hm hl
  · intro tm lines res i j tag label hm hl hne hb
    exact processScanLine_back hm hl hne hb
  · intro lines start i h1 h2
    rcases snippetWindow_spec h1 h2 with ⟨_, hl, hh, hg⟩
    exact ⟨hh, hg, hl⟩

/-- C6 witness: on a file whose header precedes the tag match, the
backward search finds the nearest header, the snippet is registered from
it, and the window spans header and match lines; a registry binding the
same tag to an empty label is skipped instead. -/
theorem c6_snippet_window_witness :
    (0 ≤ 1 ∧ envTest (demoBackLines.getD 0 "") = true ∧
      ∀ k, 0 < k → k ≤ 1 → envTest (demoBackLines.getD k "") = false) ∧
    processScanLine [("0001", "")] demoBackLines [] 1 = [] ∧
    processScanLine demoTagMap demoBackLines [] 1
      = addSnippet [] "label-foo" demoBackLines 0 1 ∧
    ((snippetWindow demoBackLines 0 1).head? = demoBackLines[0]? ∧
      (snippetWindow demoBackLines 0 1)[1 - 0]? = demoBackLines[1]? ∧
      (snippetWindow demoBackLines 0 1).length
        = min demoBackLines.length (1 + 3) - 0) :=
  ⟨c6_snippet_window.1 demoBackLines 1 0 (by decide),
   c6_snippet_window.2.2.1 [("0001", "")] demoBackLines [] 1 "0001"
     rfl rfl,
   c6_snippet_window.2.2.2.1 demoTagMap demoBackLines [] 1 0 "0001"
     "label-foo" rfl rfl (by decide) (by decide),
   c6_snippet_window.2.2.2.2 demoBackLines 0 1 (by decide) (by decide)⟩

/-- C9: whatever `_extract_environment` returns is a contiguous slice of
the source document's lines — the re-emitted block text is byte-identical
to the original lines — and the interleaved script's `tex_block` is the
synthesised header, the body lines joined verbatim, and the synthesised
footer, so the body is byte-identical modulo the added header and footer
markers. -/
theorem c9_round_trip :
    (∀ (lines : List String) (target : String) (out : List String),
      extractCore lines target = .ok out → sliceOf out lines) ∧
    (∀ e : StacksEnv, e.body ≠ [] →
      texBlock e = texHeader e ++ "\n" ++ pyJoin "\n" e.body ++ "\n"
        ++ texFooter e) := by
  constructor
  · intro lines target out h
    exact extractCore_slice h
  · intro e hb
    unfold texBlock
    cases hbody : e.body with
    | nil => exact absurd hbody hb
    | cons b bs =>
      rw [show [texHeader e] ++ (b :: bs) ++ [texFooter e]
          = texHeader e :: ((b :: bs) ++ [texFooter e]) by simp]
      have h1 : ((b :: bs) ++ [texFooter e]) ≠ [] := by simp
      have h2 : (b :: bs) ≠ [] := by simp
      rw [pyJoin_cons h1, pyJoin_snoc h2]
      simp [String.append_assoc]

/-- C9 witness: a concrete environment extraction is a slice of its file,
and a concrete `tex_block` decomposes into header, verbatim body and
footer. -/
theorem c9_round_trip_witness :
    sliceOf (["\\begin{lemma}", "\\label{lemma-x}", "body line",
        "\\end{lemma}"] : List String)
      ["\\begin{lemma}", "\\label{lemma-x}", "body line", "\\end{lemma}"] ∧
    texBlock ⟨"lemma", "lemma-x", "f", ["body line"], []⟩
      = texHeader ⟨"lemma", "lemma-x", "f", ["body line"], []⟩ ++ "\n"
        ++ pyJoin "\n" ["body line"] ++ "\n"
        ++ texFooter ⟨"lemma", "lemma-x", "f", ["body line"], []⟩ :=
  ⟨c9_round_trip.1 ["\\begin{lemma}", "\\label{lemma-x}", "body line",
      "\\end{lemma}"] "lemma-x" _ rfl,
   c9_round_trip.2 ⟨"lemma", "lemma-x", "f", ["body line"], []⟩ (by decide)⟩

end StacksDep
